import Mathlib

/-!
Verification development for the data-access layer of `lib/mysql_module.py`
(class `MySQLDatabase`): query caching in a Redis side store, cache-key
derivation, table-based invalidation, the value codec `_convert_value`, and
the three executors `execute_query`, `execute_commit`, `execute_many_commit`.

The Python code is shallowly embedded: pure helpers become Lean functions;
the Redis store becomes an explicit state value; the MySQL server, whose
behaviour the module only observes through connect/cursor/execute/commit
outcomes and fetched rows, becomes an explicit environment record.  Raised
Python exceptions are `Except.error`; returned envelopes are `Except.ok`.
-/

namespace MysqlModule

/-! ### Parameter values

Values that can appear as the `params` argument of the executors.  These are
the JSON-serializable Python values: `json.dumps` is applied to `params` by
`_generate_cache_key` and `_generate_param_hash`, so non-serializable
parameters would raise `TypeError` there; the model covers the serializable
universe (floats are omitted: their `repr`-based shortest-round-trip text
form has no faithful counterpart here and no claim depends on float
parameters).  Python tuples and lists serialize identically and compare
equal element-wise for our purposes; both are `pList`. -/

inductive PValue where
  | pNull : PValue
  | pBool : Bool → PValue
  | pInt : Int → PValue
  | pStr : String → PValue
  | pList : List PValue → PValue
  | pDict : List (String × PValue) → PValue

/-- Decimal digit character, `chr(48 + n)` for `n < 10`. -/
def decDigit (n : Nat) : Char := Char.ofNat (48 + n)

/-- Lowercase hexadecimal digit character, used by the `\uXXXX` escapes that
`json.dumps` (with its default `ensure_ascii=True`) emits. -/
def hexDigit (n : Nat) : Char :=
  if n < 10 then Char.ofNat (48 + n) else Char.ofNat (87 + n)

/-- Fuel-driven decimal digit expansion of a natural number (most significant
digit first); fuel `n + 1` always suffices since the argument shrinks by a
factor of ten each step. -/
def natDigitsF : Nat → Nat → List Char
  | 0, _ => []
  | f + 1, n => if n < 10 then [decDigit n] else natDigitsF f (n / 10) ++ [decDigit (n % 10)]

/-- Decimal digit string of a natural number, as Python `str` prints it. -/
def natDigits (n : Nat) : List Char := natDigitsF (n + 1) n

/-- Decimal text of a Python `int`, as `str(n)` / `json.dumps(n)` prints it:
an optional leading minus sign followed by the digits, no leading zeros. -/
def intText (n : Int) : List Char :=
  if n < 0 then '-' :: natDigits (-n).toNat else natDigits n.toNat

/-- Four lowercase hex digits of `n % 0x10000`, the payload of a `\uXXXX`
escape. -/
def hex4 (n : Nat) : List Char :=
  [hexDigit (n / 4096 % 16), hexDigit (n / 256 % 16), hexDigit (n / 16 % 16), hexDigit (n % 16)]

/-- Escape of one character inside a JSON string literal, exactly as
CPython's `json` encoder with `ensure_ascii=True` produces it: the two-char
escapes for backslash, quote, and the five named control characters; `\uXXXX`
for every other control character and every non-ASCII character, with a
surrogate pair for code points above `0xFFFF`; all other ASCII characters
stand for themselves. -/
def escChar (c : Char) : List Char :=
  if c = '\\' then ['\\', '\\']
  else if c = '"' then ['\\', '"']
  else if c = '\n' then ['\\', 'n']
  else if c = '\r' then ['\\', 'r']
  else if c = '\t' then ['\\', 't']
  else if c = '\x08' then ['\\', 'b']
  else if c = '\x0c' then ['\\', 'f']
  else if c.toNat < 0x20 then '\\' :: 'u' :: hex4 c.toNat
  else if c.toNat < 0x7f then [c]
  else if c.toNat < 0x10000 then '\\' :: 'u' :: hex4 c.toNat
  else
    '\\' :: 'u' :: hex4 (0xD800 + (c.toNat - 0x10000) / 0x400) ++
      ('\\' :: 'u' :: hex4 (0xDC00 + (c.toNat - 0x10000) % 0x400))

/-- JSON string literal for `s`: a double-quoted, escaped rendering. -/
def strText (s : String) : List Char :=
  '"' :: (s.data.flatMap escChar) ++ ['"']

/-- Lexicographic code-point comparison of character lists, exactly
Python's `<` on `str`. -/
def clistLt : List Char → List Char → Bool
  | [], [] => false
  | [], _ :: _ => true
  | _ :: _, [] => false
  | a :: as, b :: bs =>
    if a.toNat < b.toNat then true
    else if b.toNat < a.toNat then false
    else clistLt as bs

/-- Python string comparison, used by `sort_keys=True` to order dict keys. -/
def keyLt (a b : String) : Bool := clistLt a.data b.data

/-- Insertion of a rendered entry into a key-sorted list of rendered
entries, the building block of the key sort that
`json.dumps(..., sort_keys=True)` performs on every mapping (keys of a
Python dict are unique, so ties never arise for genuine inputs). -/
def insortEntry (e : String × List Char) :
    List (String × List Char) → List (String × List Char)
  | [] => [e]
  | f :: rest => if keyLt f.1 e.1 then f :: insortEntry e rest else e :: f :: rest

/-- Sort of a mapping's rendered entries by key.  Python sorts the items
first and renders afterwards; since rendering an entry does not depend on
its position and the sort compares only keys, sorting the rendered entries
produces the identical text. -/
def sortEntries : List (String × List Char) → List (String × List Char)
  | [] => []
  | e :: rest => insortEntry e (sortEntries rest)

/-- Joins key-sorted rendered entries with the `": "` and `", "`
separators. -/
def joinEntries : List (String × List Char) → List Char
  | [] => []
  | [(k, cs)] => strText k ++ ':' :: ' ' :: cs
  | (k, cs) :: e :: rest => strText k ++ ':' :: ' ' :: cs ++ ',' :: ' ' :: joinEntries (e :: rest)

mutual

/-- Text of `json.dumps(v, sort_keys=True)` with CPython's default
separators `", "` and `": "` and default `ensure_ascii=True`, as a character
list. -/
def dumpsVal : PValue → List Char
  | .pNull => ['n', 'u', 'l', 'l']
  | .pBool true => ['t', 'r', 'u', 'e']
  | .pBool false => ['f', 'a', 'l', 's', 'e']
  | .pInt n => intText n
  | .pStr s => strText s
  | .pList l => '[' :: dumpsItems l ++ [']']
  | .pDict l => '\x7b' :: joinEntries (sortEntries (renderEntries l)) ++ ['\x7d']

/-- Comma-separated renderings of array elements. -/
def dumpsItems : List PValue → List Char
  | [] => []
  | [v] => dumpsVal v
  | v :: w :: rest => dumpsVal v ++ ',' :: ' ' :: dumpsItems (w :: rest)

/-- Renders each object entry to `(key, rendered value)`. -/
def renderEntries : List (String × PValue) → List (String × List Char)
  | [] => []
  | (k, v) :: rest => (k, dumpsVal v) :: renderEntries rest

end

/-- The string `json.dumps(params, sort_keys=True)`. -/
def jsonDumps (p : PValue) : String := String.mk (dumpsVal p)

/-- Embedding of `_generate_cache_key` up to the digest: the exact string
`f"{query}:{json.dumps(params, sort_keys=True)}"` that is fed to
`hashlib.md5`.  The digest itself is kept as an explicit function parameter
`md5` throughout the model: per the specification the digest algorithm is an
implementation detail required only to be deterministic, and every theorem
below holds for an arbitrary such function (injectivity is assumed where a
claim needs collision-freedom). -/
def hashInput (query : String) (params : PValue) : String :=
  query ++ ":" ++ jsonDumps params

/-- Embedding of `MySQLDatabase._generate_cache_key`. -/
def generateCacheKey (md5 : String → String) (query : String) (params : PValue) : String :=
  md5 (hashInput query params)

/-- Embedding of `MySQLDatabase._generate_param_hash`:
`hashlib.md5(json.dumps(params, sort_keys=True).encode()).hexdigest()`. -/
def generateParamHash (md5 : String → String) (params : PValue) : String :=
  md5 (jsonDumps params)

/-! ### Raw column values and the value codec `_convert_value`

`RValue` is the universe of Python values the module sees as column values
and as (de)serialized cache documents: `None`, `str`, `bool`, `int`,
`float`, `decimal.Decimal`, `datetime.datetime`, `datetime.date`, and
containers of them.  Python floats, decimals and datetimes are modelled by
exact rationals (a float is abstracted to its numeric value; the binary
rounding of `float(Decimal)` and of `datetime.timestamp()` is below the
resolution of any claim here).  A `datetime.datetime` is carried as its
epoch-seconds timestamp, a `datetime.date` as its year/month/day fields. -/

inductive RValue where
  | jNull : RValue
  | jStr : String → RValue
  | jBool : Bool → RValue
  | jInt : Int → RValue
  | jFloat : ℚ → RValue
  | jDecimal : ℚ → RValue
  | jDatetime : ℚ → RValue
  | jDate : Nat → Nat → Nat → RValue
  | jList : List RValue → RValue
  | jDict : List (String × RValue) → RValue

/-- Digits of `n` left-padded with zeros to width `w`, as `%0⟨w⟩d`. -/
def padNum (w n : Nat) : List Char :=
  List.replicate (w - (natDigits n).length) '0' ++ natDigits n

/-- ISO-8601 rendering `YYYY-MM-DD` of `datetime.date(y, m, d).isoformat()`. -/
def dateIso (y m d : Nat) : String :=
  String.mk (padNum 4 y ++ '-' :: padNum 2 m ++ '-' :: padNum 2 d)

mutual

/-- Embedding of `MySQLDatabase._convert_value`, following the isinstance
cascade of the source in order: `None`; `str`/`bool`/`int`/`float`
unchanged; `Decimal` to `float`; `datetime.datetime` (checked before
`datetime.date`, its superclass) to its epoch timestamp; `datetime.date` to
its ISO string; lists/tuples/sets element-wise; dicts value-wise.  The
source's two trailing fallback branches (`json.loads(val)`, then
`fromisoformat` keyed on a `'T'` separator) are reachable only for values
outside every isinstance branch, e.g. `bytes` — no constructor of `RValue`
reaches them, and in particular a `str` input returns unchanged from the
second branch without ever being parsed back into a date. -/
def convertValue : RValue → RValue
  | .jNull => .jNull
  | .jStr s => .jStr s
  | .jBool b => .jBool b
  | .jInt n => .jInt n
  | .jFloat q => .jFloat q
  | .jDecimal q => .jFloat q
  | .jDatetime t => .jFloat t
  | .jDate y m d => .jStr (dateIso y m d)
  | .jList l => .jList (convertList l)
  | .jDict l => .jDict (convertDict l)

/-- Element-wise conversion of a list value. -/
def convertList : List RValue → List RValue
  | [] => []
  | v :: rest => convertValue v :: convertList rest

/-- Value-wise conversion of a mapping value. -/
def convertDict : List (String × RValue) → List (String × RValue)
  | [] => []
  | (k, v) :: rest => (k, convertValue v) :: convertDict rest

end

/-- Python identity test `val is None` on an `RValue`. -/
def isPyNone : RValue → Bool
  | .jNull => true
  | _ => false

/-- Python truthiness of an `RValue`, as used by `if cached_result:` and
`if use_cache and not cached_result:`. -/
def pyTruthy : RValue → Bool
  | .jNull => false
  | .jStr s => s ≠ ""
  | .jBool b => b
  | .jInt n => n ≠ 0
  | .jFloat q => q ≠ 0
  | .jDecimal q => q ≠ 0
  | .jDatetime _ => true
  | .jDate _ _ _ => true
  | .jList l => !l.isEmpty
  | .jDict l => !l.isEmpty

/-! ### The Redis side store

The store is two key spaces as the module uses them: plain string keys
written with `setex` (serialized query results) and set keys written with
`sadd` (the per-table index entries).  The string channel holds the
document in parsed form: every value the module ever writes there is
`json.dumps(result, default=self._convert_value)` and every read is
`json.loads` of such a write, and on the image of `_convert_value` the
loads/dumps pair is the identity, so carrying the parsed document is
faithful.  TTLs are not modelled: no claim concerns expiry, i.e. all claims
live inside the not-yet-expired window. -/

structure RedisState where
  strings : List (String × RValue)
  sets : List (String × List String)

/-- Association-list lookup. -/
def alookup {α : Type} : List (String × α) → String → Option α
  | [], _ => none
  | (k0, v0) :: rest, k => if k0 = k then some v0 else alookup rest k

/-- Association-list update (replace or append). -/
def aset {α : Type} : List (String × α) → String → α → List (String × α)
  | [], k, v => [(k, v)]
  | (k0, v0) :: rest, k, v =>
    if k0 = k then (k, v) :: rest else (k0, v0) :: aset rest k v

/-- Association-list removal of one key. -/
def adel {α : Type} : List (String × α) → String → List (String × α)
  | [], _ => []
  | (k0, v0) :: rest, k => if k0 = k then adel rest k else (k0, v0) :: adel rest k

/-- `SMEMBERS key`: the set's members, empty for an absent key. -/
def smembers (st : RedisState) (key : String) : List String :=
  match alookup st.sets key with
  | none => []
  | some ms => ms

/-- `SADD key member`. -/
def sadd (st : RedisState) (key member : String) : RedisState :=
  let cur := smembers st key
  if member ∈ cur then st
  else { st with sets := aset st.sets key (cur ++ [member]) }

/-- `SETEX key ttl doc` (the TTL is accepted and dropped, see above). -/
def setex (st : RedisState) (key : String) (_ttl : Nat) (doc : RValue) : RedisState :=
  { st with strings := aset st.strings key doc }

/-- `DEL key`, type-agnostic as in Redis: removes the key from either key
space. -/
def delKey (st : RedisState) (key : String) : RedisState :=
  { strings := adel st.strings key, sets := adel st.sets key }

/-- `DEL k1 ... kn`. -/
def delKeys (st : RedisState) (keys : List String) : RedisState :=
  keys.foldl delKey st

/-- Emptiness test on the serialized form of a stored document.
`_get_cached_query` guards `json.loads` with the truthiness of the raw
bytes returned by `GET`; the serialized text of a document is never the
empty byte string (`json.dumps` output is nonempty — `None` serializes to
the four truthy bytes `null`), so for present documents the guard always
passes. -/
def serializedNonempty (_doc : RValue) : Bool := true

/-- Embedding of `MySQLDatabase._get_cached_query`.  The Python function
returns `json.loads(bytes)` for a present, truthy value and `None` for an
absent key (or a Redis error, not modelled — the claims quantify over
store contents, not store faults).  Python `None` is `jNull`, which makes
the conflation visible: a stored `null` document loads back as the same
`None` that signals a miss to the caller. -/
def getCachedQuery (st : RedisState) (key : String) : RValue :=
  match alookup st.strings key with
  | none => .jNull
  | some doc => if serializedNonempty doc then doc else .jNull

/-- Embedding of `MySQLDatabase._cache_query`: store the serialized result
under `key` with the TTL, then register `key` in the table index entry
`table_cache:<table>:<param_hash>` of every extracted table.  The stored
document is the parsed form of `json.dumps(result, default=_convert_value)`,
i.e. `convertValue result`: `dumps` serializes JSON-native nodes directly
(on which `_convert_value` is the identity or the same structural
recursion) and passes every other node through `default=`. -/
def cacheQuery (md5 : String → String) (st : RedisState) (key : String) (result : RValue)
    (tables : List String) (params : PValue) (ttl : Nat) : RedisState :=
  let st1 := setex st key ttl (convertValue result)
  let paramHash := generateParamHash md5 params
  tables.foldl (fun acc table => sadd acc ("table_cache:" ++ table ++ ":" ++ paramHash) key) st1

/-- Embedding of `MySQLDatabase._invalidate_cache_for_table`.  With
`params` given, the index entry consulted is
`table_cache:<table>:<param_hash>`; with no `params`, the source builds the
literal key `table_cache:<table>:*` and passes it to `SMEMBERS` — a plain
key lookup in which `*` is just a character, not a pattern. -/
def invalidateCacheForTable (md5 : String → String) (st : RedisState) (table : String)
    (params : Option PValue) : RedisState :=
  let tableKey :=
    match params with
    | some p => "table_cache:" ++ table ++ ":" ++ generateParamHash md5 p
    | none => "table_cache:" ++ table ++ ":*"
  let cacheKeys := smembers st tableKey
  if !cacheKeys.isEmpty then delKey (delKeys st cacheKeys) tableKey
  else st

/-! ### Table extraction, `_extract_tables_from_query`

The source scans the query with `re.findall` for the four patterns
`FROM\s+·?(\w+)·?`, `UPDATE\s+·?(\w+)·?`, `INSERT\s+INTO\s+·?(\w+)·?`,
`DELETE\s+FROM\s+·?(\w+)·?` (backquotes written `·` here), case-insensitive,
in that order, and deduplicates with `list(set(...))`.  The embedding scans
each pattern left-to-right, taking non-overlapping matches exactly as
`findall` does.  `\w` is modelled by its ASCII fragment `[A-Za-z0-9_]` (the
table names this layer meets are ASCII identifiers), and the set-based
deduplication, whose iteration order Python leaves unspecified, is modelled
as first-occurrence deduplication — no claim depends on the order. -/

/-- Python `\s`: the six ASCII whitespace characters. -/
def isWs (c : Char) : Bool :=
  c = ' ' || c = '\t' || c = '\n' || c = '\r' || c = '\x0b' || c = '\x0c'

/-- ASCII fragment of Python `\w`. -/
def isWordChar (c : Char) : Bool :=
  (48 ≤ c.toNat && c.toNat ≤ 57) || (65 ≤ c.toNat && c.toNat ≤ 90) ||
    (97 ≤ c.toNat && c.toNat ≤ 122) || c = '_'

/-- ASCII lowercasing, the effect of `re.IGNORECASE` on these patterns. -/
def asciiLower (c : Char) : Char :=
  if 65 ≤ c.toNat && c.toNat ≤ 90 then Char.ofNat (c.toNat + 32) else c

/-- Case-insensitive literal match; returns the remainder on success. -/
def matchLit : List Char → List Char → Option (List Char)
  | [], cs => some cs
  | _ :: _, [] => none
  | l :: ls, c :: cs => if asciiLower c = asciiLower l then matchLit ls cs else none

/-- Maximal run of word characters and the remainder. -/
def takeWordRun : List Char → List Char × List Char
  | [] => ([], [])
  | c :: cs =>
    if isWordChar c then
      let (w, rest) := takeWordRun cs
      (c :: w, rest)
    else ([], c :: cs)

/-- Matches the tail of one pattern at the current position: the remaining
keyword literals, each followed by `\s+`, then an optional backquote, the
captured `\w+`, and an optional closing backquote.  Returns the capture and
the remainder after the whole match. -/
def matchKwCapture : List (List Char) → List Char → Option (String × List Char)
  | [], cs =>
    let cs1 := match cs with | '`' :: r => r | _ => cs
    match takeWordRun cs1 with
    | ([], _) => none
    | (w, rest) =>
      let rest2 := match rest with | '`' :: r => r | _ => rest
      some (String.mk w, rest2)
  | kw :: more, cs =>
    match matchLit kw cs with
    | none => none
    | some cs1 =>
      match cs1 with
      | [] => none
      | c :: rest => if isWs c then matchKwCapture more (rest.dropWhile isWs) else none

/-- `re.findall` for one pattern: try a match at each position, and continue
after the end of each successful (non-overlapping) match.  Every successful
match consumes at least one character, so fuel `length + 1` is exact. -/
def scanPattern (kws : List (List Char)) : Nat → List Char → List String
  | 0, _ => []
  | _ + 1, [] => []
  | f + 1, c :: rest =>
    match matchKwCapture kws (c :: rest) with
    | some (tbl, after) => tbl :: scanPattern kws f after
    | none => scanPattern kws f rest

/-- First-occurrence deduplication (see the note above on `list(set(..))`). -/
def dedupAux (seen : List String) : List String → List String
  | [] => []
  | s :: rest => if s ∈ seen then dedupAux seen rest else s :: dedupAux (s :: seen) rest

/-- Embedding of `MySQLDatabase._extract_tables_from_query`. -/
def extractTablesFromQuery (q : String) : List String :=
  let run := fun (kws : List (List Char)) => scanPattern kws (q.data.length + 1) q.data
  dedupAux []
    (run [['F', 'R', 'O', 'M']] ++
      run [['U', 'P', 'D', 'A', 'T', 'E']] ++
      run [['I', 'N', 'S', 'E', 'R', 'T'], ['I', 'N', 'T', 'O']] ++
      run [['D', 'E', 'L', 'E', 'T', 'E'], ['F', 'R', 'O', 'M']])

/-! ### The executors

The MySQL server is visible to the module only through the outcomes of
`connect`, `cursor`, `execute`/`executemany`, `commit` and through the rows
a cursor yields; an environment record fixes those outcomes, one record per
operation (each operation opens its own connection, so the calls of one
operation are the only calls on that connection).  A raised Python
exception is `Except.error`; a returned envelope is `Except.ok`.  Each
operation also returns the final Redis state, the final committed database
(a transcript of committed `(statement, params)` rows — `rollback` is
modelled as the discarding of uncommitted work, which the source also
relies on; close-time and rollback-time faults are not modelled), and the
trace of connection/statement events in order. -/

/-- The uniform result envelope `{success, message, result}`. -/
structure Envelope where
  success : Bool
  message : String
  result : RValue

/-- Raised Python exceptions that can cross an operation's boundary. -/
inductive PyErr where
  | mysqlErr : String → PyErr
  | nameErr : String → PyErr
  | zeroDivErr : PyErr

/-- Connection and statement events, in execution order. -/
inductive Ev where
  | evConnect : Ev
  | evConnectFail : Ev
  | evCursor : Ev
  | evCursorFail : Ev
  | evExecute : String → Ev
  | evExecuteFail : String → Ev
  | evExecuteMany : String → List PValue → Ev
  | evExecuteManyFail : String → List PValue → Ev
  | evCommit : Ev
  | evCommitFail : Ev
  | evRollback : Ev
  | evClose : Ev

/-- Environment of one `execute_query` call. -/
structure QEnv where
  connectErr : Option String
  cursorErr : Option String
  executeErr : Option String
  rows : List RValue

/-- Outcome record of one operation. -/
structure Outcome where
  ret : Except PyErr Envelope
  redis : RedisState
  db : List (String × PValue)
  trace : List Ev

/-- Embedding of `MySQLDatabase.execute_query` (source lines 318–370).
`_acquire_connection` and `conn.cursor` run before the `try` block: a fault
in either propagates.  The cache is consulted only when `use_cache and not
multi`; a non-`None` cached value returns early after releasing the
connection.  Fetching follows `fetch_mode`, with `fetchmany(fetch_count) if
fetch_count else []` for `many` and a `ValueError` — caught by the same
handler as MySQL errors — for unknown modes.  On a fresh successful fetch
with caching requested, the result is cached and registered per extracted
table. -/
def executeQuery (md5 : String → String) (env : QEnv) (st : RedisState)
    (db : List (String × PValue)) (query : String) (params : PValue)
    (fetchMode : String) (fetchCount : Option Nat) (multi : Bool)
    (useCache : Bool) (cacheTtl : Nat) : Outcome :=
  match env.connectErr with
  | some e => ⟨.error (.mysqlErr e), st, db, [.evConnectFail]⟩
  | none =>
    match env.cursorErr with
    | some e => ⟨.error (.mysqlErr e), st, db, [.evConnect, .evCursorFail]⟩
    | none =>
      let cacheKey := generateCacheKey md5 query params
      let cachedResult := if useCache && !multi then getCachedQuery st cacheKey else .jNull
      if useCache && !multi && !isPyNone cachedResult then
        ⟨.ok ⟨true, "MySQL Query Executed Successfully", cachedResult⟩, st, db,
          [.evConnect, .evCursor, .evClose]⟩
      else
        match env.executeErr with
        | some e =>
          ⟨.ok ⟨false, e, .jList []⟩, st, db,
            [.evConnect, .evCursor, .evExecuteFail query, .evClose]⟩
        | none =>
          let fetched : Option RValue :=
            if fetchMode = "all" then some (.jList env.rows)
            else if fetchMode = "many" then
              match fetchCount with
              | some n => if n ≠ 0 then some (.jList (env.rows.take n)) else some (.jList [])
              | none => some (.jList [])
            else if fetchMode = "one" then
              some (match env.rows.head? with | some r => r | none => .jNull)
            else none
          match fetched with
          | none =>
            ⟨.ok ⟨false, "Invalid fetch_mode: " ++ fetchMode, .jList []⟩, st, db,
              [.evConnect, .evCursor, .evExecute query, .evClose]⟩
          | some result =>
            let st2 :=
              if useCache && !pyTruthy cachedResult then
                cacheQuery md5 st cacheKey result (extractTablesFromQuery query) params cacheTtl
              else st
            ⟨.ok ⟨true, "MySQL Query Executed Successfully", result⟩, st2, db,
              [.evConnect, .evCursor, .evExecute query, .evClose]⟩

/-- Environment of one `execute_commit` call. -/
structure CEnv where
  connectErr : Option String
  cursorErr : Option String
  executeErr : Option String
  commitErr : Option String
  lastrowid : Int
  rowcount : Int

/-- Embedding of `MySQLDatabase.execute_commit` (source lines 372–413).
Here only `_acquire_connection` precedes the `try`; cursor creation,
execution and commit faults are all caught, roll the transaction back, and
produce the failure envelope, with the connection released by `finally` in
every case. -/
def executeCommit (md5 : String → String) (env : CEnv) (st : RedisState)
    (db : List (String × PValue)) (query : String) (params : PValue)
    (returnRow : Bool) (returnCount : Bool) (invalidateTables : Bool) : Outcome :=
  match env.connectErr with
  | some e => ⟨.error (.mysqlErr e), st, db, [.evConnectFail]⟩
  | none =>
    match env.cursorErr with
    | some e =>
      ⟨.ok ⟨false, "MySQL Commit Query Execution Error: " ++ e, .jList []⟩, st, db,
        [.evConnect, .evCursorFail, .evRollback, .evClose]⟩
    | none =>
      match env.executeErr with
      | some e =>
        ⟨.ok ⟨false, "MySQL Commit Query Execution Error: " ++ e, .jList []⟩, st, db,
          [.evConnect, .evCursor, .evExecuteFail query, .evRollback, .evClose]⟩
      | none =>
        match env.commitErr with
        | some e =>
          ⟨.ok ⟨false, "MySQL Commit Query Execution Error: " ++ e, .jList []⟩, st, db,
            [.evConnect, .evCursor, .evExecute query, .evCommitFail, .evRollback, .evClose]⟩
        | none =>
          let db2 := db ++ [(query, params)]
          let st2 :=
            if invalidateTables then
              (extractTablesFromQuery query).foldl
                (fun acc table => invalidateCacheForTable md5 acc table none) st
            else st
          let result : RValue :=
            if returnRow then .jInt env.lastrowid
            else if returnCount then .jInt env.rowcount
            else .jList []
          ⟨.ok ⟨true, "MySQL Commit Query Executed Successfully", result⟩, st2, db2,
            [.evConnect, .evCursor, .evExecute query, .evCommit, .evClose]⟩

/-- Environment of one `execute_many_commit` call: per-chunk outcomes of
`executemany` and `commit`, indexed by chunk number from zero. -/
structure MEnv where
  connectErr : Option String
  cursorErr : Option String
  chunkExecErr : Nat → Option String
  chunkCommitErr : Nat → Option String

/-- The chunk loop of `execute_many_commit`: for each chunk in order,
`executemany` then `commit`; the first fault ends the loop with the failure
envelope, leaving previously committed chunks committed.  Fuel counts
chunks; each iteration consumes at least one row when `batchSize ≥ 1`. -/
def manyLoop (env : MEnv) (query : String) (batchSize : Nat) :
    Nat → Nat → List PValue → List (String × PValue) → List Ev →
      Except PyErr Envelope × List (String × PValue) × List Ev
  | 0, _, _, db, tr => (.ok ⟨false, "fuel exhausted", .jList []⟩, db, tr)
  | _ + 1, _, [], db, tr =>
    (.ok ⟨true, "MySQL Multi-Commit Executed Successfully", .jList []⟩, db, tr)
  | f + 1, k, p :: rest, db, tr =>
    let batch := (p :: rest).take batchSize
    match env.chunkExecErr k with
    | some e =>
      (.ok ⟨false, "MySQL Multi-Commit Error: " ++ e, .jList []⟩, db,
        tr ++ [.evExecuteManyFail query batch])
    | none =>
      match env.chunkCommitErr k with
      | some e =>
        (.ok ⟨false, "MySQL Multi-Commit Error: " ++ e, .jList []⟩, db,
          tr ++ [.evExecuteMany query batch, .evCommitFail])
      | none =>
        manyLoop env query batchSize f (k + 1) ((p :: rest).drop batchSize)
          (db ++ batch.map (fun q => (query, q)))
          (tr ++ [.evExecuteMany query batch, .evCommit])

/-- Embedding of `MySQLDatabase.execute_many_commit` (source lines
415–447).  Empty data is rejected before any connection is opened.  A zero
batch size raises `ZeroDivisionError` at `math.ceil(len(data)/batch_size)`,
uncaught (the handler catches only MySQL errors), with the connection still
released by `finally`.  A cursor-creation fault is caught by the MySQL
handler, whose f-string log message references the then-unbound
`batch_data` and so raises `NameError` out of the handler.  No cache
invalidation happens on this path. -/
def executeManyCommit (env : MEnv) (st : RedisState) (db : List (String × PValue))
    (query : String) (data : List PValue) (batchSize : Nat) : Outcome :=
  if data.isEmpty then
    ⟨.ok ⟨false, "No data provided for batch execution.", .jList []⟩, st, db, []⟩
  else
    match env.connectErr with
    | some e => ⟨.error (.mysqlErr e), st, db, [.evConnectFail]⟩
    | none =>
      if batchSize = 0 then
        ⟨.error .zeroDivErr, st, db, [.evConnect, .evClose]⟩
      else
        match env.cursorErr with
        | some _ =>
          ⟨.error (.nameErr "name 'batch_data' is not defined"), st, db,
            [.evConnect, .evCursorFail, .evClose]⟩
        | none =>
          let (ret, db2, tr) := manyLoop env query batchSize (data.length + 1) 0 data db []
          ⟨ret, st, db2, [.evConnect, .evCursor] ++ tr ++ [.evClose]⟩

/-! ### Classifiers used by the theorems -/

/-- Is this value a `datetime.date` (and not a `datetime.datetime`)? -/
def isDateVal : RValue → Bool
  | .jDate _ _ _ => true
  | _ => false

/-- Is this value a `datetime.datetime`? -/
def isDatetimeVal : RValue → Bool
  | .jDatetime _ => true
  | _ => false

/-- Is this a connection-opened event? -/
def isConnectEv : Ev → Bool
  | .evConnect => true
  | _ => false

/-- Is this a connection-closed event? -/
def isCloseEv : Ev → Bool
  | .evClose => true
  | _ => false

/-- Is this a statement-execution attempt (single or batched, failed or
not)? -/
def isExecEv : Ev → Bool
  | .evExecute _ => true
  | .evExecuteFail _ => true
  | .evExecuteMany _ _ => true
  | .evExecuteManyFail _ _ => true
  | _ => false

/-! ### C6 — codec round-trip -/

/-- Idempotence of the codec: a second pass over already-converted data
changes nothing. -/
theorem convertValue_idem : ∀ v : RValue, convertValue (convertValue v) = convertValue v := by
  intro v
  induction v using RValue.rec
    (motive_2 := fun l => convertList (convertList l) = convertList l)
    (motive_3 := fun l => convertDict (convertDict l) = convertDict l)
    (motive_4 := fun p => convertDict (convertDict [p]) = convertDict [p]) with
  | jList l ih => simp [convertValue, ih]
  | jDict l ih => simp [convertValue, ih]
  | _ => first | rfl | simp_all [convertList, convertDict, convertValue]

/-- C6 counterexample: the claim that decoding an encoded date-time or date
reproduces an equivalent date-time or date is false.  An encoded
`datetime.date(2020, 1, 2)` is the string `"2020-01-02"`, and the codec
returns strings unchanged (the `isinstance(val, (str, ...))` branch
precedes the `fromisoformat` fallback), so decoding yields that same
string, not a date; likewise an encoded date-time is an epoch float and
stays a float. -/
theorem claim_C6_counterexample :
    convertValue (convertValue (.jDate 2020 1 2)) = .jStr "2020-01-02" ∧
      isDateVal (convertValue (convertValue (.jDate 2020 1 2))) = false ∧
      convertValue (convertValue (.jDatetime 1700000000)) = .jFloat 1700000000 ∧
      isDatetimeVal (convertValue (convertValue (.jDatetime 1700000000))) = false :=
  ⟨rfl, rfl, rfl, rfl⟩

/-- C6 (amended): applying the codec to an encoded value reproduces the
encoded value (the codec is idempotent), and on the representative values
the round trip behaves as follows — null, strings, booleans, ints, floats
and nested lists/mappings of them are reproduced exactly; a decimal is
reproduced as a float of the same magnitude; an encoded date-time is an
epoch float and an encoded date is an ISO-8601 string, both of which decode
to themselves rather than back to date-time or date values. -/
theorem claim_C6_amended :
    (∀ v : RValue, convertValue (convertValue v) = convertValue v) ∧
      convertValue (convertValue .jNull) = .jNull ∧
      convertValue (convertValue (.jStr "x")) = .jStr "x" ∧
      convertValue (convertValue (.jBool true)) = .jBool true ∧
      convertValue (convertValue (.jInt 42)) = .jInt 42 ∧
      convertValue (convertValue (.jFloat (314/100))) = .jFloat (314/100) ∧
      convertValue (convertValue (.jDecimal (25/2))) = .jFloat (25/2) ∧
      convertValue (convertValue (.jDatetime 1700000000)) = .jFloat 1700000000 ∧
      convertValue (convertValue (.jDate 2020 1 2)) = .jStr "2020-01-02" ∧
      convertValue (convertValue (.jList [.jInt 1, .jDict [("a", .jStr "b")]])) =
        .jList [.jInt 1, .jDict [("a", .jStr "b")]] :=
  ⟨convertValue_idem, rfl, rfl, rfl, rfl, rfl, rfl, rfl, rfl, rfl⟩

/-! ### C1 — full-table invalidation

The write path invalidates with no parameter hash, which makes the source
consult the literal Redis key `table_cache:<table>:*`.  That key is never
written by `_cache_query` (which always embeds a concrete parameter hash),
so `SMEMBERS` returns the empty set and nothing is deleted: the
invalidation is a no-op and a previously cached read stays a cache hit.
The scenario below evaluates the embedded module end to end on the spec's
own example pair of statements. -/

/-- The digest function of the scenario: any deterministic digest exhibits
the bug; the identity keeps the keys readable. -/
def c1md5 : String → String := id

/-- A healthy server for the scenario's reads: one row. -/
def c1qenv : QEnv := ⟨none, none, none, [.jInt 7]⟩

/-- A healthy server for the scenario's write. -/
def c1cenv : CEnv := ⟨none, none, none, none, 5, 1⟩

/-- Scenario step 1: a cached read of `users`. -/
def c1AfterRead : Outcome :=
  executeQuery c1md5 c1qenv ⟨[], []⟩ [] "SELECT * FROM users WHERE id = %s"
    (.pList [.pInt 1]) "all" none false true 86400

/-- Scenario step 2: an invalidating write to `users`. -/
def c1AfterWrite : Outcome :=
  executeCommit c1md5 c1cenv c1AfterRead.redis c1AfterRead.db
    "UPDATE users SET name = %s WHERE id = %s" (.pList [.pStr "Bob", .pInt 1])
    false false true

/-- Scenario step 3: the identical read again, after the write. -/
def c1Repeat : Outcome :=
  executeQuery c1md5 c1qenv c1AfterWrite.redis c1AfterWrite.db
    "SELECT * FROM users WHERE id = %s" (.pList [.pInt 1]) "all" none false true 86400

/-- The cache key of the scenario's read under the identity digest. -/
def c1Key : String := "SELECT * FROM users WHERE id = %s:[1]"

/-- C1: evaluation of the code at the failing input.  The read populates
the cache and registers its key in the `users` table index; the write to
`users` succeeds with invalidation on; yet the cached entry and the index
entry both survive, and the repeated identical read is a cache hit (its
trace executes no statement) instead of the cache miss the claim
requires. -/
theorem claim_C1_invalidation_bug_eval :
    alookup c1AfterRead.redis.strings c1Key = some (.jList [.jInt 7]) ∧
      smembers c1AfterRead.redis "table_cache:users:[1]" = [c1Key] ∧
      c1AfterWrite.ret = .ok ⟨true, "MySQL Commit Query Executed Successfully", .jList []⟩ ∧
      alookup c1AfterWrite.redis.strings c1Key = some (.jList [.jInt 7]) ∧
      smembers c1AfterWrite.redis "table_cache:users:[1]" = [c1Key] ∧
      c1Repeat.ret = .ok ⟨true, "MySQL Query Executed Successfully", .jList [.jInt 7]⟩ ∧
      c1Repeat.trace = [.evConnect, .evCursor, .evClose] ∧
      c1Repeat.trace.countP isExecEv = 0 :=
  ⟨rfl, rfl, rfl, rfl, rfl, rfl, rfl, rfl⟩

/-! ### C2 — the read path's error envelope -/

/-- C2 counterexample: a connection-establishment failure does escape
`execute_query` as a raised fault — `_acquire_connection` re-raises the
connector error and is called before the `try` block — and so does a
cursor-creation failure, since `conn.cursor(dictionary=True)` also runs
before the `try`.  On both inputs the returned value is a raised error,
not the `{success: false, message, result: []}` envelope the claim
requires for every input. -/
theorem claim_C2_counterexample :
    (executeQuery id ⟨some "2003: Cannot connect to MySQL server", none, none, []⟩
        ⟨[], []⟩ [] "SELECT 1" .pNull "all" none false true 86400).ret =
      .error (.mysqlErr "2003: Cannot connect to MySQL server") ∧
      (executeQuery id ⟨none, some "2055: Lost connection to MySQL server", none, []⟩
          ⟨[], []⟩ [] "SELECT 1" .pNull "all" none false true 86400).ret =
        .error (.mysqlErr "2055: Lost connection to MySQL server") :=
  ⟨rfl, rfl⟩

/-- C2 (amended): once a connection and cursor exist, `execute_query`
always returns an envelope — no fault escapes from that point on; on the
executing path a statement-execution error returns
`{success: false, message: str(error), result: []}` and an unrecognized
fetch mode returns `{success: false, message: "Invalid fetch_mode: ..",
result: []}`.  Connection-establishment and cursor-creation failures,
which the claim also covered, instead propagate as raised errors (see the
counterexample). -/
theorem claim_C2_amended (md5 : String → String) (env : QEnv) (st : RedisState)
    (db : List (String × PValue)) (q : String) (p : PValue) (fm : String)
    (fc : Option Nat) (multi useCache : Bool) (ttl : Nat)
    (hc : env.connectErr = none) (hcur : env.cursorErr = none) :
    (∃ envlp, (executeQuery md5 env st db q p fm fc multi useCache ttl).ret = .ok envlp) ∧
      (∀ e, env.executeErr = some e →
        (useCache && !multi &&
            !isPyNone (getCachedQuery st (generateCacheKey md5 q p))) = false →
        (executeQuery md5 env st db q p fm fc multi useCache ttl).ret =
          .ok ⟨false, e, .jList []⟩) ∧
      (env.executeErr = none → fm ≠ "all" → fm ≠ "many" → fm ≠ "one" →
        (useCache && !multi &&
            !isPyNone (getCachedQuery st (generateCacheKey md5 q p))) = false →
        (executeQuery md5 env st db q p fm fc multi useCache ttl).ret =
          .ok ⟨false, "Invalid fetch_mode: " ++ fm, .jList []⟩) := by
  obtain ⟨ce, cu, ex, rows⟩ := env
  simp only at hc hcur
  subst hc hcur
  refine ⟨?_, ?_, ?_⟩
  · cases useCache <;> cases multi <;>
      cases hpn : isPyNone (getCachedQuery st (generateCacheKey md5 q p)) <;>
      cases ex <;>
      simp only [executeQuery, hpn, Bool.and_self, Bool.and_true, Bool.and_false,
        Bool.true_and, Bool.false_and, Bool.not_true, Bool.not_false, if_true, if_false,
        Bool.false_eq_true, ite_false, ite_true] <;>
      first
        | exact ⟨_, rfl⟩
        | (rcases hfe : (if fm = "all" then some (RValue.jList rows)
              else if fm = "many" then
                match fc with
                | some n => if n ≠ 0 then some (RValue.jList (rows.take n))
                  else some (RValue.jList [])
                | none => some (RValue.jList [])
              else if fm = "one" then
                some (match rows.head? with | some r => r | none => RValue.jNull)
              else none) with _ | r <;> simp only [hfe] <;> exact ⟨_, rfl⟩)
  · intro e he hmiss
    subst he
    cases useCache <;> cases multi <;>
      cases hpn : isPyNone (getCachedQuery st (generateCacheKey md5 q p)) <;>
      simp_all [executeQuery, hpn]
  · intro hex h1 h2 h3 hmiss
    subst hex
    cases useCache <;> cases multi <;>
      cases hpn : isPyNone (getCachedQuery st (generateCacheKey md5 q p)) <;>
      simp_all [executeQuery, hpn, h1, h2, h3]

/-- C2 amended, witnessed at a concrete input: a malformed-statement error
from the server yields the failure envelope. -/
theorem claim_C2_amended_witness :
    (executeQuery id ⟨none, none, some "1064: You have an error in your SQL syntax", []⟩
        ⟨[], []⟩ [] "SELEC 1" .pNull "all" none false true 86400).ret =
      .ok ⟨false, "1064: You have an error in your SQL syntax", .jList []⟩ :=
  (claim_C2_amended id ⟨none, none, some "1064: You have an error in your SQL syntax", []⟩
      ⟨[], []⟩ [] "SELEC 1" .pNull "all" none false true 86400 rfl rfl).2.1
    "1064: You have an error in your SQL syntax" rfl rfl

/-! ### C3 — the cache-hit path -/

/-- C3 counterexample: a cache hit does open (and close) a connection.
`_acquire_connection` and `conn.cursor` run before the cache lookup, so the
hit path's trace contains a connect event, contradicting the claim that no
connection is opened. -/
theorem claim_C3_counterexample :
    (executeQuery id ⟨none, none, none, []⟩ ⟨[("SELECT * FROM t:null", .jList [])], []⟩ []
        "SELECT * FROM t" .pNull "all" none false true 86400).ret =
      .ok ⟨true, "MySQL Query Executed Successfully", .jList []⟩ ∧
      (executeQuery id ⟨none, none, none, []⟩ ⟨[("SELECT * FROM t:null", .jList [])], []⟩ []
          "SELECT * FROM t" .pNull "all" none false true 86400).trace.countP isConnectEv = 1 :=
  ⟨rfl, rfl⟩

/-- C3 (amended): on a hit (caching requested, single statement, cached
value not `None`), `execute_query` returns `{success: true, result:
cached_rows}` without executing any statement, and leaves the cache and
database untouched; a connection and cursor are, however, opened before the
lookup and released before returning. -/
theorem claim_C3_amended (md5 : String → String) (env : QEnv) (st : RedisState)
    (db : List (String × PValue)) (q : String) (p : PValue) (fm : String)
    (fc : Option Nat) (ttl : Nat)
    (hc : env.connectErr = none) (hcur : env.cursorErr = none)
    (hhit : isPyNone (getCachedQuery st (generateCacheKey md5 q p)) = false) :
    (executeQuery md5 env st db q p fm fc false true ttl).ret =
        .ok ⟨true, "MySQL Query Executed Successfully",
          getCachedQuery st (generateCacheKey md5 q p)⟩ ∧
      (executeQuery md5 env st db q p fm fc false true ttl).redis = st ∧
      (executeQuery md5 env st db q p fm fc false true ttl).db = db ∧
      (executeQuery md5 env st db q p fm fc false true ttl).trace =
        [.evConnect, .evCursor, .evClose] ∧
      (executeQuery md5 env st db q p fm fc false true ttl).trace.countP isExecEv = 0 := by
  obtain ⟨ce, cu, ex, rows⟩ := env
  simp only at hc hcur
  subst hc hcur
  simp [executeQuery, hhit, isExecEv, List.countP, List.countP.go]

/-- C3 amended, witnessed at a concrete input with a cached empty row
set. -/
theorem claim_C3_amended_witness :
    (executeQuery id ⟨none, none, none, []⟩ ⟨[("SELECT * FROM t:null", .jList [])], []⟩ []
        "SELECT * FROM t" .pNull "all" none false true 86400).trace =
      [.evConnect, .evCursor, .evClose] :=
  (claim_C3_amended id ⟨none, none, none, []⟩ ⟨[("SELECT * FROM t:null", .jList [])], []⟩ []
      "SELECT * FROM t" .pNull "all" none 86400 rfl rfl rfl).2.2.2.1

/-! ### Redis state helper lemmas -/

/-- Updating then looking up the same key yields the new value. -/
theorem alookup_aset_self {α : Type} (l : List (String × α)) (k : String) (v : α) :
    alookup (aset l k v) k = some v := by
  induction l with
  | nil => simp [aset, alookup]
  | cons e rest ih =>
    by_cases h : e.1 = k
    · obtain ⟨k0, v0⟩ := e
      simp_all [aset, alookup]
    · obtain ⟨k0, v0⟩ := e
      simp_all [aset, alookup]

/-- `SADD` touches only the set key space. -/
theorem sadd_strings (st : RedisState) (k m : String) : (sadd st k m).strings = st.strings := by
  unfold sadd
  simp only []
  split <;> rfl

/-- The table-registration fold of `_cache_query` touches only the set key
space. -/
theorem foldl_sadd_strings (tables : List String) (key ph : String) :
    ∀ st : RedisState,
      (tables.foldl (fun acc table => sadd acc ("table_cache:" ++ table ++ ":" ++ ph) key)
          st).strings = st.strings := by
  induction tables with
  | nil => intro st; rfl
  | cons t rest ih => intro st; rw [List.foldl_cons, ih, sadd_strings]

/-- The string-channel content after `_cache_query`. -/
theorem cacheQuery_strings (md5 : String → String) (st : RedisState) (key : String)
    (result : RValue) (tables : List String) (params : PValue) (ttl : Nat) :
    (cacheQuery md5 st key result tables params ttl).strings =
      aset st.strings key (convertValue result) := by
  unfold cacheQuery setex
  rw [foldl_sadd_strings]

/-! ### C4 — write-path atomicity -/

/-- C4: once the connection exists, every cursor-creation, execution or
commit fault makes `execute_commit` roll back before releasing the
connection and return `{success: false, message, result: []}`, leaving the
committed database and the cache untouched; on success the statement is
committed, and cache invalidation is attempted exactly when requested.  The
failure cases state the whole outcome, so the rollback-before-close order
and the absence of any commit or invalidation are part of the equality. -/
theorem claim_C4_commit_atomicity (md5 : String → String) (env : CEnv) (st : RedisState)
    (db : List (String × PValue)) (q : String) (p : PValue) (rr rc inv : Bool)
    (hc : env.connectErr = none) :
    (∀ e, env.cursorErr = some e →
      executeCommit md5 env st db q p rr rc inv =
        ⟨.ok ⟨false, "MySQL Commit Query Execution Error: " ++ e, .jList []⟩, st, db,
          [.evConnect, .evCursorFail, .evRollback, .evClose]⟩) ∧
      (∀ e, env.cursorErr = none → env.executeErr = some e →
        executeCommit md5 env st db q p rr rc inv =
          ⟨.ok ⟨false, "MySQL Commit Query Execution Error: " ++ e, .jList []⟩, st, db,
            [.evConnect, .evCursor, .evExecuteFail q, .evRollback, .evClose]⟩) ∧
      (∀ e, env.cursorErr = none → env.executeErr = none → env.commitErr = some e →
        executeCommit md5 env st db q p rr rc inv =
          ⟨.ok ⟨false, "MySQL Commit Query Execution Error: " ++ e, .jList []⟩, st, db,
            [.evConnect, .evCursor, .evExecute q, .evCommitFail, .evRollback, .evClose]⟩) ∧
      (env.cursorErr = none → env.executeErr = none → env.commitErr = none →
        (executeCommit md5 env st db q p rr rc inv).ret =
            .ok ⟨true, "MySQL Commit Query Executed Successfully",
              if rr then .jInt env.lastrowid
              else if rc then .jInt env.rowcount else .jList []⟩ ∧
          (executeCommit md5 env st db q p rr rc inv).db = db ++ [(q, p)] ∧
          (inv = true →
            (executeCommit md5 env st db q p rr rc inv).redis =
              (extractTablesFromQuery q).foldl
                (fun acc table => invalidateCacheForTable md5 acc table none) st) ∧
          (inv = false → (executeCommit md5 env st db q p rr rc inv).redis = st) ∧
          (executeCommit md5 env st db q p rr rc inv).trace =
            [.evConnect, .evCursor, .evExecute q, .evCommit, .evClose]) := by
  obtain ⟨ce, cu, ex, cm, lr, rco⟩ := env
  simp only at hc
  subst hc
  refine ⟨?_, ?_, ?_, ?_⟩
  · intro e he
    simp only at he
    subst he
    rfl
  · intro e hcu he
    simp only at hcu he
    subst hcu he
    rfl
  · intro e hcu he hcm
    simp only at hcu he hcm
    subst hcu he hcm
    rfl
  · intro hcu he hcm
    simp only at hcu he hcm
    subst hcu he hcm
    refine ⟨rfl, rfl, fun hi => ?_, fun hi => ?_, rfl⟩ <;> subst hi <;> rfl

/-- C4 witnessed at a concrete input: a commit error rolls back, leaves the
database and cache unchanged, and reports failure. -/
theorem claim_C4_commit_atomicity_witness :
    executeCommit id ⟨none, none, none, some "1213: Deadlock found", 0, 0⟩ ⟨[], []⟩ []
        "UPDATE users SET a = 1" .pNull false false true =
      ⟨.ok ⟨false, "MySQL Commit Query Execution Error: 1213: Deadlock found", .jList []⟩,
        ⟨[], []⟩, [],
        [.evConnect, .evCursor, .evExecute "UPDATE users SET a = 1", .evCommitFail,
          .evRollback, .evClose]⟩ :=
  (claim_C4_commit_atomicity id ⟨none, none, none, some "1213: Deadlock found", 0, 0⟩
      ⟨[], []⟩ [] "UPDATE users SET a = 1" .pNull false false true rfl).2.2.1
    "1213: Deadlock found" rfl rfl rfl

/-! ### C9 — fetch mode `many` with no row limit -/

/-- C9: with `fetch_mode="many"` and a missing, `None` or zero
`fetch_count`, the guard `fetchmany(fetch_count) if fetch_count else []`
takes its else branch: the call succeeds with an empty result list without
fetching rows — whatever the cursor holds — and no invalid-argument failure
is reported; with caching requested, that empty list is stored under the
query's cache key. -/
theorem claim_C9_many_without_count (md5 : String → String) (env : QEnv) (st : RedisState)
    (db : List (String × PValue)) (q : String) (p : PValue) (fc : Option Nat)
    (useCache : Bool) (ttl : Nat)
    (hc : env.connectErr = none) (hcur : env.cursorErr = none) (hex : env.executeErr = none)
    (hfc : fc = none ∨ fc = some 0)
    (hmiss : isPyNone (getCachedQuery st (generateCacheKey md5 q p)) = true) :
    (executeQuery md5 env st db q p "many" fc false useCache ttl).ret =
        .ok ⟨true, "MySQL Query Executed Successfully", .jList []⟩ ∧
      (useCache = true →
        alookup (executeQuery md5 env st db q p "many" fc false useCache ttl).redis.strings
            (generateCacheKey md5 q p) = some (.jList [])) := by
  obtain ⟨ce, cu, ex, rows⟩ := env
  simp only at hc hcur hex
  subst hc hcur hex
  have hpt : pyTruthy (getCachedQuery st (generateCacheKey md5 q p)) = false := by
    cases hg : getCachedQuery st (generateCacheKey md5 q p) <;>
      simp_all [isPyNone, pyTruthy]
  rcases hfc with hfc | hfc <;> subst hfc <;> cases useCache <;>
    constructor <;>
    simp_all [executeQuery, cacheQuery_strings, alookup_aset_self, convertValue, convertList]

/-- C9 witnessed at a concrete input: `fetch_count = None` on a cursor that
would yield a row still returns the empty list, and stores it. -/
theorem claim_C9_many_without_count_witness :
    (executeQuery id ⟨none, none, none, [.jInt 9]⟩ ⟨[], []⟩ [] "SELECT a FROM t" .pNull
          "many" none false true 86400).ret =
        .ok ⟨true, "MySQL Query Executed Successfully", .jList []⟩ ∧
      alookup (executeQuery id ⟨none, none, none, [.jInt 9]⟩ ⟨[], []⟩ [] "SELECT a FROM t"
            .pNull "many" none false true 86400).redis.strings "SELECT a FROM t:null" =
        some (.jList []) := by
  have h := claim_C9_many_without_count id ⟨none, none, none, [.jInt 9]⟩ ⟨[], []⟩ []
    "SELECT a FROM t" .pNull none true 86400 rfl rfl rfl (Or.inl rfl) rfl
  exact ⟨h.1, h.2 rfl⟩

/-! ### C10 — a cached `None` is stored but never served -/

/-- C10: a `fetch_mode="one"` read that matches no row stores a `null`
document in the cache, but `_get_cached_query` returns `json.loads` of the
stored bytes — `None` for that document — which the caller's
`is not None` guard treats as a miss, so every later identical read
re-executes the statement; a cached empty row list (bytes `[]`,
which load back as a non-`None` empty list) is served as a hit. -/
theorem claim_C10_cached_null :
    (∀ (md5 : String → String) (env : QEnv) (st : RedisState) (db : List (String × PValue))
        (q : String) (p : PValue) (ttl : Nat),
      env.connectErr = none → env.cursorErr = none → env.executeErr = none →
      env.rows = [] →
      isPyNone (getCachedQuery st (generateCacheKey md5 q p)) = true →
      (executeQuery md5 env st db q p "one" none false true ttl).ret =
          .ok ⟨true, "MySQL Query Executed Successfully", .jNull⟩ ∧
        alookup (executeQuery md5 env st db q p "one" none false true ttl).redis.strings
            (generateCacheKey md5 q p) = some .jNull) ∧
      (∀ (md5 : String → String) (env : QEnv) (st : RedisState)
          (db : List (String × PValue)) (q : String) (p : PValue) (ttl : Nat),
        env.connectErr = none → env.cursorErr = none → env.executeErr = none →
        alookup st.strings (generateCacheKey md5 q p) = some .jNull →
        (executeQuery md5 env st db q p "all" none false true ttl).trace =
          [.evConnect, .evCursor, .evExecute q, .evClose]) ∧
      (∀ (md5 : String → String) (env : QEnv) (st : RedisState)
          (db : List (String × PValue)) (q : String) (p : PValue) (fm : String)
          (fc : Option Nat) (ttl : Nat),
        env.connectErr = none → env.cursorErr = none →
        alookup st.strings (generateCacheKey md5 q p) = some (.jList []) →
        (executeQuery md5 env st db q p fm fc false true ttl).ret =
            .ok ⟨true, "MySQL Query Executed Successfully", .jList []⟩ ∧
          (executeQuery md5 env st db q p fm fc false true ttl).trace =
            [.evConnect, .evCursor, .evClose]) := by
  refine ⟨?_, ?_, ?_⟩
  · intro md5 env st db q p ttl hc hcur hex hrows hmiss
    obtain ⟨ce, cu, ex, rows⟩ := env
    simp only at hc hcur hex hrows
    subst hc hcur hex hrows
    have hpt : pyTruthy (getCachedQuery st (generateCacheKey md5 q p)) = false := by
      cases hg : getCachedQuery st (generateCacheKey md5 q p) <;>
        simp_all [isPyNone, pyTruthy]
    constructor <;>
      simp_all [executeQuery, cacheQuery_strings, alookup_aset_self, convertValue, convertList]
  · intro md5 env st db q p ttl hc hcur hex hnull
    obtain ⟨ce, cu, ex, rows⟩ := env
    simp only at hc hcur hex
    subst hc hcur hex
    have hmiss : isPyNone (getCachedQuery st (generateCacheKey md5 q p)) = true := by
      simp [getCachedQuery, hnull, serializedNonempty, isPyNone]
    simp [executeQuery, hmiss]
  · intro md5 env st db q p fm fc ttl hc hcur hemp
    obtain ⟨ce, cu, ex, rows⟩ := env
    simp only at hc hcur
    subst hc hcur
    have hhit : getCachedQuery st (generateCacheKey md5 q p) = .jList [] := by
      simp [getCachedQuery, hemp, serializedNonempty]
    simp [executeQuery, hhit, isPyNone]

/-- C10 witnessed at a concrete input: an empty `one`-read stores `null`,
the repeat of the same read re-executes, and a cached `[]` is served. -/
theorem claim_C10_cached_null_witness :
    (alookup (executeQuery id ⟨none, none, none, []⟩ ⟨[], []⟩ [] "SELECT a FROM t WHERE b"
          .pNull "one" none false true 86400).redis.strings "SELECT a FROM t WHERE b:null" =
        some .jNull) ∧
      (executeQuery id ⟨none, none, none, []⟩
          ⟨[("SELECT a FROM t WHERE b:null", .jNull)], []⟩ [] "SELECT a FROM t WHERE b"
          .pNull "all" none false true 86400).trace =
        [.evConnect, .evCursor, .evExecute "SELECT a FROM t WHERE b", .evClose] ∧
      (executeQuery id ⟨none, none, none, []⟩
          ⟨[("SELECT a FROM t WHERE b:null", .jList [])], []⟩ [] "SELECT a FROM t WHERE b"
          .pNull "all" none false true 86400).ret =
        .ok ⟨true, "MySQL Query Executed Successfully", .jList []⟩ := by
  refine ⟨?_, ?_, ?_⟩
  · exact (claim_C10_cached_null.1 id ⟨none, none, none, []⟩ ⟨[], []⟩ []
      "SELECT a FROM t WHERE b" .pNull 86400 rfl rfl rfl rfl rfl).2
  · exact claim_C10_cached_null.2.1 id ⟨none, none, none, []⟩
      ⟨[("SELECT a FROM t WHERE b:null", .jNull)], []⟩ [] "SELECT a FROM t WHERE b"
      .pNull 86400 rfl rfl rfl rfl
  · exact (claim_C10_cached_null.2.2 id ⟨none, none, none, []⟩
      ⟨[("SELECT a FROM t WHERE b:null", .jList [])], []⟩ [] "SELECT a FROM t WHERE b"
      .pNull "all" none 86400 rfl rfl rfl).1

/-! ### C7 — one connection per operation, released on every exit path -/

/-- The chunk loop emits no connection events: whatever it appends to the
trace, the connect/close counts are untouched. -/
theorem manyLoop_conn_counts (env : MEnv) (q : String) (bs : Nat) :
    ∀ (fuel k : Nat) (rem : List PValue) (db : List (String × PValue)) (tr : List Ev),
      ((manyLoop env q bs fuel k rem db tr).2.2).countP isConnectEv =
          tr.countP isConnectEv ∧
        ((manyLoop env q bs fuel k rem db tr).2.2).countP isCloseEv =
          tr.countP isCloseEv := by
  intro fuel
  induction fuel with
  | zero => intro k rem db tr; exact ⟨rfl, rfl⟩
  | succ f ih =>
    intro k rem db tr
    cases rem with
    | nil => exact ⟨rfl, rfl⟩
    | cons p rest =>
      cases hce : env.chunkExecErr k with
      | some e =>
        simp only [manyLoop, hce]
        constructor <;> rw [List.countP_append] <;>
          simp [List.countP_cons, isConnectEv, isCloseEv]
      | none =>
        cases hcc : env.chunkCommitErr k with
        | some e =>
          simp only [manyLoop, hce, hcc]
          constructor <;> rw [List.countP_append] <;>
            simp [List.countP_cons, isConnectEv, isCloseEv]
        | none =>
          have h := ih (k + 1) ((p :: rest).drop bs)
            (db ++ ((p :: rest).take bs).map (fun v => (q, v)))
            (tr ++ [.evExecuteMany q ((p :: rest).take bs), .evCommit])
          simp only [manyLoop, hce, hcc]
          constructor
          · rw [h.1, List.countP_append]
            simp [List.countP_cons, isConnectEv]
          · rw [h.2, List.countP_append]
            simp [List.countP_cons, isCloseEv]

/-- C7 counterexample: when cursor creation fails in `execute_query` the
acquired connection is never released.  `conn.cursor(dictionary=True)` runs
after `_acquire_connection` but before the `try`/`finally`, so the raised
connector error propagates with the connect event unmatched by any close
event. -/
theorem claim_C7_counterexample :
    (executeQuery id ⟨none, some "2055: Lost connection", none, []⟩ ⟨[], []⟩ []
          "SELECT 1" .pNull "all" none false true 86400).ret =
        .error (.mysqlErr "2055: Lost connection") ∧
      (executeQuery id ⟨none, some "2055: Lost connection", none, []⟩ ⟨[], []⟩ []
          "SELECT 1" .pNull "all" none false true 86400).trace =
        [.evConnect, .evCursorFail] ∧
      (executeQuery id ⟨none, some "2055: Lost connection", none, []⟩ ⟨[], []⟩ []
            "SELECT 1" .pNull "all" none false true 86400).trace.countP isConnectEv = 1 ∧
      (executeQuery id ⟨none, some "2055: Lost connection", none, []⟩ ⟨[], []⟩ []
            "SELECT 1" .pNull "all" none false true 86400).trace.countP isCloseEv = 0 :=
  ⟨rfl, rfl, rfl, rfl⟩

/-- C7 (amended): every exit path of the three executors releases exactly
the connections it acquired — success, statement error, commit error,
cache hit, rejected empty batch, zero batch size, and even the
`NameError` escape of `execute_many_commit` — with the single exception of
`execute_query` when connection establishment succeeds but cursor creation
fails, where the connection leaks (see the counterexample); that pair of
outcomes is excluded by hypothesis in the first conjunct. -/
theorem claim_C7_amended :
    (∀ (md5 : String → String) (env : QEnv) (st : RedisState)
        (db : List (String × PValue)) (q : String) (p : PValue) (fm : String)
        (fc : Option Nat) (multi useCache : Bool) (ttl : Nat),
      (env.connectErr = none → env.cursorErr = none) →
      (executeQuery md5 env st db q p fm fc multi useCache ttl).trace.countP isConnectEv =
        (executeQuery md5 env st db q p fm fc multi useCache ttl).trace.countP isCloseEv) ∧
      (∀ (md5 : String → String) (env : CEnv) (st : RedisState)
          (db : List (String × PValue)) (q : String) (p : PValue) (rr rc inv : Bool),
        (executeCommit md5 env st db q p rr rc inv).trace.countP isConnectEv =
          (executeCommit md5 env st db q p rr rc inv).trace.countP isCloseEv) ∧
      (∀ (env : MEnv) (st : RedisState) (db : List (String × PValue)) (q : String)
          (data : List PValue) (bs : Nat),
        (executeManyCommit env st db q data bs).trace.countP isConnectEv =
          (executeManyCommit env st db q data bs).trace.countP isCloseEv) := by
  refine ⟨?_, ?_, ?_⟩
  · intro md5 env st db q p fm fc multi useCache ttl hok
    obtain ⟨ce, cu, ex, rows⟩ := env
    cases ce with
    | some e => rfl
    | none =>
      have hcu : cu = none := hok rfl
      subst hcu
      cases useCache <;> cases multi <;>
        cases hpn : isPyNone (getCachedQuery st (generateCacheKey md5 q p)) <;>
        cases ex <;>
        simp only [executeQuery, hpn, Bool.and_self, Bool.and_true, Bool.and_false,
          Bool.true_and, Bool.false_and, Bool.not_true, Bool.not_false,
          Bool.false_eq_true, ite_false, ite_true] <;>
        first
          | rfl
          | (rcases hfe : (if fm = "all" then some (RValue.jList rows)
                else if fm = "many" then
                  match fc with
                  | some n => if n ≠ 0 then some (RValue.jList (rows.take n))
                    else some (RValue.jList [])
                  | none => some (RValue.jList [])
                else if fm = "one" then
                  some (match rows.head? with | some r => r | none => RValue.jNull)
                else none) with _ | r <;> simp only [hfe] <;> rfl)
  · intro md5 env st db q p rr rc inv
    obtain ⟨ce, cu, ex, cm, lr, rco⟩ := env
    cases ce with
    | some e => rfl
    | none =>
      cases cu with
      | some e => rfl
      | none =>
        cases ex with
        | some e => rfl
        | none =>
          cases cm with
          | some e => rfl
          | none => rfl
  · intro env st db q data bs
    obtain ⟨ce, cu, cex, ccm⟩ := env
    cases data with
    | nil => rfl
    | cons p rest =>
      cases ce with
      | some e => rfl
      | none =>
        by_cases hbs : bs = 0
        · subst hbs; rfl
        · cases cu with
          | some e =>
            simp only [executeManyCommit, hbs, List.isEmpty_cons, if_neg hbs]
            simp [List.countP_cons, isConnectEv, isCloseEv]
          | none =>
            rcases hml : manyLoop ⟨none, none, cex, ccm⟩ q bs ((p :: rest).length + 1) 0
              (p :: rest) db [] with ⟨ret, db2, tr⟩
            have h := manyLoop_conn_counts ⟨none, none, cex, ccm⟩ q bs
              ((p :: rest).length + 1) 0 (p :: rest) db []
            rw [hml] at h
            have h1 : tr.countP isConnectEv = 0 := by simpa using h.1
            have h2 : tr.countP isCloseEv = 0 := by simpa using h.2
            simp only [executeManyCommit, hbs, List.isEmpty_cons, if_neg hbs, hml]
            simp [List.countP_append, List.countP_cons, h1, h2, isConnectEv, isCloseEv]

/-! ### C5 — chunked batch writes -/

/-- The events the chunk loop of `execute_many_commit` emits when every
chunk succeeds: one `executemany` of `take batch_size` and one commit per
chunk, in order; fuel `length + 1` always suffices for a positive batch
size. -/
def chunkEvsF (q : String) (bs : Nat) : Nat → List PValue → List Ev
  | 0, _ => []
  | _ + 1, [] => []
  | f + 1, p :: rest =>
    .evExecuteMany q ((p :: rest).take bs) :: .evCommit :: chunkEvsF q bs f ((p :: rest).drop bs)

/-- The per-chunk events of a fully successful batch over `l`. -/
def chunkEvs (q : String) (bs : Nat) (l : List PValue) : List Ev :=
  chunkEvsF q bs (l.length + 1) l

/-- Fuel irrelevance for `chunkEvsF` above the list length. -/
theorem chunkEvsF_stable (q : String) (bs : Nat) (hbs : 1 ≤ bs) :
    ∀ (f g : Nat) (l : List PValue), l.length < f → l.length < g →
      chunkEvsF q bs f l = chunkEvsF q bs g l := by
  intro f
  induction f with
  | zero => intro g l hf; omega
  | succ f ih =>
    intro g l hf hg
    cases l with
    | nil =>
      cases g with
      | zero => omega
      | succ g => rfl
    | cons p rest =>
      cases g with
      | zero => omega
      | succ g =>
        simp only [chunkEvsF]
        have hlen : ((p :: rest).drop bs).length < f := by
          simp only [List.length_drop, List.length_cons] at *
          omega
        have hlen2 : ((p :: rest).drop bs).length < g := by
          simp only [List.length_drop, List.length_cons] at *
          omega
        rw [ih g ((p :: rest).drop bs) hlen hlen2]

/-- One-chunk unfolding of `chunkEvs` on a nonempty list. -/
theorem chunkEvs_cons (q : String) (bs : Nat) (hbs : 1 ≤ bs) (l : List PValue)
    (hl : l ≠ []) :
    chunkEvs q bs l = .evExecuteMany q (l.take bs) :: .evCommit :: chunkEvs q bs (l.drop bs) := by
  cases l with
  | nil => exact absurd rfl hl
  | cons p rest =>
    show chunkEvsF q bs ((p :: rest).length + 1) (p :: rest) = _
    simp only [chunkEvsF, List.length_cons]
    congr 1
    congr 1
    apply chunkEvsF_stable q bs hbs
    · simp only [List.length_drop, List.length_cons]
      omega
    · simp only [List.length_drop, List.length_cons]
      omega

/-- The chunk loop when every chunk from `k` on succeeds: all rows are
committed in order and the trace grows by the per-chunk events. -/
theorem manyLoop_all_ok (env : MEnv) (q : String) (bs : Nat) (hbs : 1 ≤ bs) :
    ∀ (fuel k : Nat) (rem : List PValue) (db : List (String × PValue)) (tr : List Ev),
      rem.length < fuel →
      (∀ i : Nat, env.chunkExecErr (k + i) = none ∧ env.chunkCommitErr (k + i) = none) →
      manyLoop env q bs fuel k rem db tr =
        (.ok ⟨true, "MySQL Multi-Commit Executed Successfully", .jList []⟩,
          db ++ rem.map (fun v => (q, v)), tr ++ chunkEvs q bs rem) := by
  intro fuel
  induction fuel with
  | zero => intro k rem db tr hf; omega
  | succ f ih =>
    intro k rem db tr hf hok
    cases rem with
    | nil => simp [manyLoop, chunkEvs, chunkEvsF]
    | cons p rest =>
      have h0 := hok 0
      simp only [Nat.add_zero] at h0
      have hlen : ((p :: rest).drop bs).length < f := by
        simp only [List.length_drop, List.length_cons] at *
        omega
      have hok2 : ∀ i : Nat, env.chunkExecErr (k + 1 + i) = none ∧
          env.chunkCommitErr (k + 1 + i) = none := by
        intro i
        have := hok (i + 1)
        rwa [show k + (i + 1) = k + 1 + i by omega] at this
      simp only [manyLoop, h0.1, h0.2]
      rw [ih (k + 1) ((p :: rest).drop bs)
        (db ++ ((p :: rest).take bs).map (fun v => (q, v)))
        (tr ++ [Ev.evExecuteMany q ((p :: rest).take bs), Ev.evCommit]) hlen hok2]
      rw [chunkEvs_cons q bs hbs (p :: rest) (by simp)]
      simp [List.map_append, List.take_append_drop]

/-- The chunk loop when chunks before `j` succeed and chunk `j`'s
`executemany` fails: exactly the first `j * batch_size` rows are committed,
the chunks after `j` are never attempted, and the loop reports the failure
envelope. -/
theorem manyLoop_exec_fail (env : MEnv) (q : String) (bs : Nat) (hbs : 1 ≤ bs) :
    ∀ (j fuel k : Nat) (rem : List PValue) (db : List (String × PValue)) (tr : List Ev)
      (e : String),
      rem.length < fuel → j * bs < rem.length →
      (∀ i, i < j → env.chunkExecErr (k + i) = none ∧ env.chunkCommitErr (k + i) = none) →
      env.chunkExecErr (k + j) = some e →
      manyLoop env q bs fuel k rem db tr =
        (.ok ⟨false, "MySQL Multi-Commit Error: " ++ e, .jList []⟩,
          db ++ (rem.take (j * bs)).map (fun v => (q, v)),
          tr ++ chunkEvs q bs (rem.take (j * bs)) ++
            [.evExecuteManyFail q ((rem.drop (j * bs)).take bs)]) := by
  intro j
  induction j with
  | zero =>
    intro fuel k rem db tr e hf hj hprev hfail
    cases rem with
    | nil => simp at hj
    | cons p rest =>
      cases fuel with
      | zero => omega
      | succ f =>
        rw [Nat.add_zero] at hfail
        simp [manyLoop, hfail, chunkEvs, chunkEvsF]
  | succ j ih =>
    intro fuel k rem db tr e hf hj hprev hfail
    cases rem with
    | nil => simp at hj
    | cons p rest =>
      cases fuel with
      | zero => omega
      | succ f =>
        have h0 := hprev 0 (by omega)
        simp only [Nat.add_zero] at h0
        have hlen : ((p :: rest).drop bs).length < f := by
          simp only [List.length_drop, List.length_cons] at *
          omega
        have hj2 : j * bs < ((p :: rest).drop bs).length := by
          simp only [List.length_drop, List.length_cons] at *
          have : (j + 1) * bs = j * bs + bs := by ring
          omega
        have hprev2 : ∀ i, i < j → env.chunkExecErr (k + 1 + i) = none ∧
            env.chunkCommitErr (k + 1 + i) = none := by
          intro i hi
          have := hprev (i + 1) (by omega)
          rwa [show k + (i + 1) = k + 1 + i by omega] at this
        have hfail2 : env.chunkExecErr (k + 1 + j) = some e := by
          rwa [show k + (j + 1) = k + 1 + j by omega] at hfail
        simp only [manyLoop, h0.1, h0.2]
        rw [ih f (k + 1) ((p :: rest).drop bs)
          (db ++ ((p :: rest).take bs).map (fun v => (q, v)))
          (tr ++ [Ev.evExecuteMany q ((p :: rest).take bs), Ev.evCommit]) e hlen hj2 hprev2
          hfail2]
        have htake : (p :: rest).take ((j + 1) * bs) =
            (p :: rest).take bs ++ ((p :: rest).drop bs).take (j * bs) := by
          rw [show (j + 1) * bs = bs + j * bs by ring]
          rw [List.take_add]
        have hdrop : ((p :: rest).drop bs).drop (j * bs) = (p :: rest).drop ((j + 1) * bs) := by
          rw [List.drop_drop]
          congr 1
          ring
        rw [htake, hdrop]
        have hchunk : chunkEvs q bs ((p :: rest).take bs ++ ((p :: rest).drop bs).take (j * bs)) =
            .evExecuteMany q ((p :: rest).take bs) :: .evCommit ::
              chunkEvs q bs (((p :: rest).drop bs).take (j * bs)) := by
          have hne : (p :: rest).take bs ++ ((p :: rest).drop bs).take (j * bs) ≠ [] := by
            cases bs with
            | zero => omega
            | succ b => simp [List.take]
          rw [chunkEvs_cons q bs hbs _ hne]
          have hlentake : bs ≤ ((p :: rest).take bs).length := by
            simp only [List.length_take, List.length_cons]
            have : (j + 1) * bs = j * bs + bs := by ring
            simp only [List.length_cons] at hj
            omega
          rw [List.take_append_of_le_length (by omega), List.drop_append_of_le_length (by omega)]
          have : ((p :: rest).take bs).take bs = (p :: rest).take bs := by
            rw [List.take_take]
            simp
          rw [this]
          have hdtake : ((p :: rest).take bs).drop bs = [] := by
            rw [List.drop_eq_nil_iff]
            simp only [List.length_take, List.length_cons]
            omega
          rw [hdtake]
          simp
        rw [hchunk]
        simp [List.map_append]

/-- The chunk loop when chunks before `j` succeed, chunk `j`'s
`executemany` succeeds but its `commit` fails: as with an execution fault,
only the first `j * batch_size` rows are committed (the pending chunk is
discarded uncommitted) and no later chunk is attempted. -/
theorem manyLoop_commit_fail (env : MEnv) (q : String) (bs : Nat) (hbs : 1 ≤ bs) :
    ∀ (j fuel k : Nat) (rem : List PValue) (db : List (String × PValue)) (tr : List Ev)
      (e : String),
      rem.length < fuel → j * bs < rem.length →
      (∀ i, i < j → env.chunkExecErr (k + i) = none ∧ env.chunkCommitErr (k + i) = none) →
      env.chunkExecErr (k + j) = none → env.chunkCommitErr (k + j) = some e →
      manyLoop env q bs fuel k rem db tr =
        (.ok ⟨false, "MySQL Multi-Commit Error: " ++ e, .jList []⟩,
          db ++ (rem.take (j * bs)).map (fun v => (q, v)),
          tr ++ chunkEvs q bs (rem.take (j * bs)) ++
            [.evExecuteMany q ((rem.drop (j * bs)).take bs), .evCommitFail]) := by
  intro j
  induction j with
  | zero =>
    intro fuel k rem db tr e hf hj hprev hfe hfail
    cases rem with
    | nil => simp at hj
    | cons p rest =>
      cases fuel with
      | zero => omega
      | succ f =>
        rw [Nat.add_zero] at hfe hfail
        simp [manyLoop, hfe, hfail, chunkEvs, chunkEvsF]
  | succ j ih =>
    intro fuel k rem db tr e hf hj hprev hfe hfail
    cases rem with
    | nil => simp at hj
    | cons p rest =>
      cases fuel with
      | zero => omega
      | succ f =>
        have h0 := hprev 0 (by omega)
        simp only [Nat.add_zero] at h0
        have hlen : ((p :: rest).drop bs).length < f := by
          simp only [List.length_drop, List.length_cons] at *
          omega
        have hj2 : j * bs < ((p :: rest).drop bs).length := by
          simp only [List.length_drop, List.length_cons] at *
          have : (j + 1) * bs = j * bs + bs := by ring
          omega
        have hprev2 : ∀ i, i < j → env.chunkExecErr (k + 1 + i) = none ∧
            env.chunkCommitErr (k + 1 + i) = none := by
          intro i hi
          have := hprev (i + 1) (by omega)
          rwa [show k + (i + 1) = k + 1 + i by omega] at this
        have hfe2 : env.chunkExecErr (k + 1 + j) = none := by
          rwa [show k + (j + 1) = k + 1 + j by omega] at hfe
        have hfail2 : env.chunkCommitErr (k + 1 + j) = some e := by
          rwa [show k + (j + 1) = k + 1 + j by omega] at hfail
        simp only [manyLoop, h0.1, h0.2]
        rw [ih f (k + 1) ((p :: rest).drop bs)
          (db ++ ((p :: rest).take bs).map (fun v => (q, v)))
          (tr ++ [Ev.evExecuteMany q ((p :: rest).take bs), Ev.evCommit]) e hlen hj2 hprev2
          hfe2 hfail2]
        have htake : (p :: rest).take ((j + 1) * bs) =
            (p :: rest).take bs ++ ((p :: rest).drop bs).take (j * bs) := by
          rw [show (j + 1) * bs = bs + j * bs by ring]
          rw [List.take_add]
        have hdrop : ((p :: rest).drop bs).drop (j * bs) = (p :: rest).drop ((j + 1) * bs) := by
          rw [List.drop_drop]
          congr 1
          ring
        rw [htake, hdrop]
        have hchunk : chunkEvs q bs ((p :: rest).take bs ++ ((p :: rest).drop bs).take (j * bs)) =
            .evExecuteMany q ((p :: rest).take bs) :: .evCommit ::
              chunkEvs q bs (((p :: rest).drop bs).take (j * bs)) := by
          have hne : (p :: rest).take bs ++ ((p :: rest).drop bs).take (j * bs) ≠ [] := by
            cases bs with
            | zero => omega
            | succ b => simp [List.take]
          rw [chunkEvs_cons q bs hbs _ hne]
          have hlentake : bs ≤ ((p :: rest).take bs).length := by
            simp only [List.length_take, List.length_cons]
            have : (j + 1) * bs = j * bs + bs := by ring
            simp only [List.length_cons] at hj
            omega
          rw [List.take_append_of_le_length (by omega), List.drop_append_of_le_length (by omega)]
          have : ((p :: rest).take bs).take bs = (p :: rest).take bs := by
            rw [List.take_take]
            simp
          rw [this]
          have hdtake : ((p :: rest).take bs).drop bs = [] := by
            rw [List.drop_eq_nil_iff]
            simp only [List.length_take, List.length_cons]
            omega
          rw [hdtake]
          simp
        rw [hchunk]
        simp [List.map_append]

/-- C5: `execute_many_commit` rejects an empty parameter list immediately
(before any connection) with a failure envelope; otherwise it partitions
the list into consecutive `batch_size`-chunks and commits them in order —
on full success every row is committed in order; when chunk `j` fails (in
its `executemany` or its `commit`), the rows of chunks strictly before `j`
— exactly the first `j * batch_size` rows — remain committed with no
rollback, no chunk after `j` is ever attempted (the trace ends at the
failing chunk), and the result is the failure envelope.  The cache is
untouched on every path. -/
theorem claim_C5_batch_partial_commit :
    (∀ (env : MEnv) (st : RedisState) (db : List (String × PValue)) (q : String) (bs : Nat),
      executeManyCommit env st db q [] bs =
        ⟨.ok ⟨false, "No data provided for batch execution.", .jList []⟩, st, db, []⟩) ∧
      (∀ (env : MEnv) (st : RedisState) (db : List (String × PValue)) (q : String)
          (data : List PValue) (bs : Nat),
        data ≠ [] → 1 ≤ bs → env.connectErr = none → env.cursorErr = none →
        (∀ i : Nat, env.chunkExecErr i = none ∧ env.chunkCommitErr i = none) →
        executeManyCommit env st db q data bs =
          ⟨.ok ⟨true, "MySQL Multi-Commit Executed Successfully", .jList []⟩, st,
            db ++ data.map (fun v => (q, v)),
            [.evConnect, .evCursor] ++ chunkEvs q bs data ++ [.evClose]⟩) ∧
      (∀ (env : MEnv) (st : RedisState) (db : List (String × PValue)) (q : String)
          (data : List PValue) (bs j : Nat) (e : String),
        data ≠ [] → 1 ≤ bs → env.connectErr = none → env.cursorErr = none →
        j * bs < data.length →
        (∀ i, i < j → env.chunkExecErr i = none ∧ env.chunkCommitErr i = none) →
        env.chunkExecErr j = some e →
        executeManyCommit env st db q data bs =
          ⟨.ok ⟨false, "MySQL Multi-Commit Error: " ++ e, .jList []⟩, st,
            db ++ (data.take (j * bs)).map (fun v => (q, v)),
            [.evConnect, .evCursor] ++ chunkEvs q bs (data.take (j * bs)) ++
              [.evExecuteManyFail q ((data.drop (j * bs)).take bs), .evClose]⟩) ∧
      (∀ (env : MEnv) (st : RedisState) (db : List (String × PValue)) (q : String)
          (data : List PValue) (bs j : Nat) (e : String),
        data ≠ [] → 1 ≤ bs → env.connectErr = none → env.cursorErr = none →
        j * bs < data.length →
        (∀ i, i < j → env.chunkExecErr i = none ∧ env.chunkCommitErr i = none) →
        env.chunkExecErr j = none → env.chunkCommitErr j = some e →
        executeManyCommit env st db q data bs =
          ⟨.ok ⟨false, "MySQL Multi-Commit Error: " ++ e, .jList []⟩, st,
            db ++ (data.take (j * bs)).map (fun v => (q, v)),
            [.evConnect, .evCursor] ++ chunkEvs q bs (data.take (j * bs)) ++
              [.evExecuteMany q ((data.drop (j * bs)).take bs), .evCommitFail, .evClose]⟩) := by
  refine ⟨?_, ?_, ?_, ?_⟩
  · intro env st db q bs
    rfl
  · intro env st db q data bs hne hbs hc hcu hok
    obtain ⟨ce, cu, cex, ccm⟩ := env
    simp only at hc hcu
    subst hc hcu
    cases data with
    | nil => exact absurd rfl hne
    | cons p rest =>
      have hbs0 : bs ≠ 0 := by omega
      have hl := manyLoop_all_ok ⟨none, none, cex, ccm⟩ q bs hbs ((p :: rest).length + 1) 0
        (p :: rest) db [] (by omega) (by intro i; simpa using hok i)
      simp only [executeManyCommit, List.isEmpty_cons, if_neg hbs0, hl]
      simp
  · intro env st db q data bs j e hne hbs hc hcu hj hprev hfail
    obtain ⟨ce, cu, cex, ccm⟩ := env
    simp only at hc hcu
    subst hc hcu
    cases data with
    | nil => exact absurd rfl hne
    | cons p rest =>
      have hbs0 : bs ≠ 0 := by omega
      have hl := manyLoop_exec_fail ⟨none, none, cex, ccm⟩ q bs hbs j
        ((p :: rest).length + 1) 0 (p :: rest) db [] e (by omega) hj
        (by intro i hi; simpa using hprev i hi) (by simpa using hfail)
      simp only [executeManyCommit, List.isEmpty_cons, if_neg hbs0, hl]
      simp
  · intro env st db q data bs j e hne hbs hc hcu hj hprev hfe hfail
    obtain ⟨ce, cu, cex, ccm⟩ := env
    simp only at hc hcu
    subst hc hcu
    cases data with
    | nil => exact absurd rfl hne
    | cons p rest =>
      have hbs0 : bs ≠ 0 := by omega
      have hl := manyLoop_commit_fail ⟨none, none, cex, ccm⟩ q bs hbs j
        ((p :: rest).length + 1) 0 (p :: rest) db [] e (by omega) hj
        (by intro i hi; simpa using hprev i hi) (by simpa using hfe) (by simpa using hfail)
      simp only [executeManyCommit, List.isEmpty_cons, if_neg hbs0, hl]
      simp

/-- C5 witnessed at a concrete input: five rows in batches of two, where
the second chunk's `executemany` fails — the first two rows stay committed,
the third chunk is never attempted, and the call reports failure. -/
theorem claim_C5_batch_partial_commit_witness :
    executeManyCommit
        ⟨none, none, fun k => if k = 1 then some "1062: Duplicate entry" else none,
          fun _ => none⟩ ⟨[], []⟩ [] "INSERT INTO t VALUES (%s)"
        [.pInt 1, .pInt 2, .pInt 3, .pInt 4, .pInt 5] 2 =
      ⟨.ok ⟨false, "MySQL Multi-Commit Error: 1062: Duplicate entry", .jList []⟩, ⟨[], []⟩,
        [("INSERT INTO t VALUES (%s)", .pInt 1), ("INSERT INTO t VALUES (%s)", .pInt 2)],
        [.evConnect, .evCursor, .evExecuteMany "INSERT INTO t VALUES (%s)" [.pInt 1, .pInt 2],
          .evCommit, .evExecuteManyFail "INSERT INTO t VALUES (%s)" [.pInt 3, .pInt 4],
          .evClose]⟩ := by
  have h := claim_C5_batch_partial_commit.2.2.1
    ⟨none, none, fun k => if k = 1 then some "1062: Duplicate entry" else none,
      fun _ => none⟩ ⟨[], []⟩ [] "INSERT INTO t VALUES (%s)"
    [.pInt 1, .pInt 2, .pInt 3, .pInt 4, .pInt 5] 2 1 "1062: Duplicate entry"
    (by simp) (by omega) rfl rfl (by simp)
    (by intro i hi; interval_cases i; simp) (by simp)
  simpa [chunkEvs, chunkEvsF] using h

/-- C7 amended, witnessed at concrete inputs: a failing statement on the
read path still balances its connect/close events. -/
theorem claim_C7_amended_witness :
    (executeQuery id ⟨none, none, some "1146: Table does not exist", []⟩ ⟨[], []⟩ []
        "SELECT a FROM missing" .pNull "all" none false true 86400).trace.countP
        isConnectEv =
      (executeQuery id ⟨none, none, some "1146: Table does not exist", []⟩ ⟨[], []⟩ []
          "SELECT a FROM missing" .pNull "all" none false true 86400).trace.countP
        isCloseEv :=
  claim_C7_amended.1 id ⟨none, none, some "1146: Table does not exist", []⟩ ⟨[], []⟩ []
    "SELECT a FROM missing" .pNull "all" none false true 86400 (fun _ => rfl)

/-! ### C8 — cache-key derivation

The claim has two halves: determinism — trivial for a pure function — and
input sensitivity.  The digest `hashlib.md5` enters the model as the
function parameter `md5` (per spec §4.2 the digest is an implementation
detail that must be deterministic and collision-resistant enough for cache
correctness); sensitivity is proved for every injective digest by showing
the pre-digest construction `f"{query}:{json.dumps(params,
sort_keys=True)}"` injective in the pair `(query, params)`.  That is the
substantial fact: a colon may occur inside the query, inside a serialized
string parameter, and as the object separator, so the proof builds a
right-to-left parser for the serialized form and shows it recovers both the
parameters and the query from the combined string. -/

/-- ASCII decimal digit test. -/
def isDigitCh (c : Char) : Bool := 48 ≤ c.toNat && c.toNat ≤ 57

/-- Lowercase-hex digit test, the alphabet of `\uXXXX` payloads. -/
def isHexCh (c : Char) : Bool :=
  (48 ≤ c.toNat && c.toNat ≤ 57) || (97 ≤ c.toNat && c.toNat ≤ 102)

/-- Value of a lowercase-hex digit. -/
def hexVal (c : Char) : Nat := if c.toNat ≤ 57 then c.toNat - 48 else c.toNat - 87

/-- The characters that can immediately precede a serialized value in a
hash-input string: the query/params separator, the space of `", "` and
`": "`, and the two opening brackets. -/
def isBoundary (c : Char) : Bool := c = ':' || c = ' ' || c = '[' || c = '\x7b'

/-- `Char.ofNat` round-trips on valid code points. -/
theorem toNat_ofNat_valid (n : Nat) (h : Nat.isValidChar n) : (Char.ofNat n).toNat = n := by
  unfold Char.ofNat
  rw [dif_pos h]
  rfl

/-- `Char.ofNat` round-trips below the surrogate range. -/
theorem toNat_ofNat_lt (n : Nat) (h : n < 55296) : (Char.ofNat n).toNat = n :=
  toNat_ofNat_valid n (Or.inl h)

/-- Code point of a decimal digit character. -/
theorem decDigit_toNat (n : Nat) (h : n < 10) : (decDigit n).toNat = 48 + n :=
  toNat_ofNat_lt (48 + n) (by omega)

/-- Decimal digit characters are digits. -/
theorem isDigitCh_decDigit (n : Nat) (h : n < 10) : isDigitCh (decDigit n) = true := by
  simp [isDigitCh, decDigit_toNat n h]
  omega

/-- Code point of a hex digit character. -/
theorem hexDigit_toNat (n : Nat) (h : n < 16) :
    (hexDigit n).toNat = if n < 10 then 48 + n else 87 + n := by
  unfold hexDigit
  split <;> rw [toNat_ofNat_lt _ (by omega)]

/-- Hex digit characters are hex digits. -/
theorem isHexCh_hexDigit (n : Nat) (h : n < 16) : isHexCh (hexDigit n) = true := by
  have := hexDigit_toNat n h
  by_cases h10 : n < 10 <;> simp [h10] at this <;> simp [isHexCh, this] <;> omega

/-- Decoding a hex digit character recovers its value. -/
theorem hexVal_hexDigit (n : Nat) (h : n < 16) : hexVal (hexDigit n) = n := by
  have := hexDigit_toNat n h
  by_cases h10 : n < 10 <;> simp [h10] at this <;> simp [hexVal, this] <;> omega

/-- Fuel irrelevance for the digit expansion. -/
theorem natDigitsF_stable : ∀ (n f g : Nat), n < f → n < g → natDigitsF f n = natDigitsF g n := by
  intro n
  induction n using Nat.strong_induction_on with
  | _ n ih =>
    intro f g hf hg
    cases f with
    | zero => omega
    | succ f =>
      cases g with
      | zero => omega
      | succ g =>
        simp only [natDigitsF]
        split
        · rfl
        · rename_i h10
          have hlt : n / 10 < n := Nat.div_lt_self (by omega) (by omega)
          rw [ih (n / 10) hlt f g (by omega) (by omega)]

/-- Defining equation of `natDigits`. -/
theorem natDigits_eq (n : Nat) :
    natDigits n = if n < 10 then [decDigit n] else natDigits (n / 10) ++ [decDigit (n % 10)] := by
  show natDigitsF (n + 1) n = _
  rw [natDigitsF]
  split
  · rfl
  · rename_i h10
    have hlt : n / 10 < n := Nat.div_lt_self (by omega) (by omega)
    rw [natDigitsF_stable (n / 10) n (n / 10 + 1) (by omega) (by omega)]
    rfl

/-- Every character of a digit expansion is a digit. -/
theorem natDigits_all_digits (n : Nat) : ∀ c ∈ natDigits n, isDigitCh c = true := by
  induction n using Nat.strong_induction_on with
  | _ n ih =>
    rw [natDigits_eq]
    split
    · rename_i h10
      intro c hc
      simp at hc
      subst hc
      exact isDigitCh_decDigit n h10
    · rename_i h10
      intro c hc
      simp at hc
      rcases hc with hc | hc
      · exact ih (n / 10) (Nat.div_lt_self (by omega) (by omega)) c hc
      · subst hc
        exact isDigitCh_decDigit (n % 10) (Nat.mod_lt n (by omega))

/-- A digit expansion is nonempty. -/
theorem natDigits_ne_nil (n : Nat) : natDigits n ≠ [] := by
  rw [natDigits_eq]
  split <;> simp

/-- A digit expansion ends in a digit (its reversal starts with one). -/
theorem natDigits_rev_head (n : Nat) :
    ∃ c cs, (natDigits n).reverse = c :: cs ∧ isDigitCh c = true := by
  rw [natDigits_eq]
  split
  · rename_i h10
    exact ⟨decDigit n, [], by simp, isDigitCh_decDigit n h10⟩
  · rename_i h10
    refine ⟨decDigit (n % 10), (natDigits (n / 10)).reverse, by simp, ?_⟩
    exact isDigitCh_decDigit (n % 10) (Nat.mod_lt n (by omega))

/-- Decimal decoding, the left fold `acc * 10 + digit`. -/
def natFromDigits (ds : List Char) : Nat :=
  ds.foldl (fun acc c => acc * 10 + (c.toNat - 48)) 0

/-- The fold over an appended final digit. -/
theorem natFromDigits_append (ds : List Char) (c : Char) :
    natFromDigits (ds ++ [c]) = natFromDigits ds * 10 + (c.toNat - 48) := by
  unfold natFromDigits
  rw [List.foldl_append]
  rfl

/-- Decimal decoding inverts the digit expansion. -/
theorem natFromDigits_natDigits (n : Nat) : natFromDigits (natDigits n) = n := by
  induction n using Nat.strong_induction_on with
  | _ n ih =>
    rw [natDigits_eq]
    split
    · rename_i h10
      simp [natFromDigits, decDigit_toNat n h10]
    · rename_i h10
      rw [natFromDigits_append, ih (n / 10) (Nat.div_lt_self (by omega) (by omega)),
        decDigit_toNat (n % 10) (Nat.mod_lt n (by omega))]
      omega

/-! #### Decoding one escaped character -/

/-- The two-character escapes, inverse direction. -/
def simpleUnesc (c : Char) : Option Char :=
  if c = '\\' then some '\\'
  else if c = '"' then some '"'
  else if c = 'n' then some '\n'
  else if c = 'r' then some '\r'
  else if c = 't' then some '\t'
  else if c = 'b' then some '\x08'
  else if c = 'f' then some '\x0c'
  else none

/-- Numeric payload of four hex digit characters. -/
def hex4Val (h1 h2 h3 h4 : Char) : Nat :=
  hexVal h1 * 4096 + hexVal h2 * 256 + hexVal h3 * 16 + hexVal h4

/-- First decoding pass over the escaped interior of a JSON string
literal: each escape or plain character becomes one UTF-16-style code unit
(`\uXXXX` escapes are taken at face value; pairing of surrogates is the
second pass). -/
def unescUnits : List Char → Option (List Nat)
  | [] => some []
  | '\\' :: 'u' :: h1 :: h2 :: h3 :: h4 :: rest3 =>
    if isHexCh h1 && isHexCh h2 && isHexCh h3 && isHexCh h4 then
      (unescUnits rest3).map (hex4Val h1 h2 h3 h4 :: ·)
    else none
  | '\\' :: d :: rest2 =>
    match simpleUnesc d with
    | some e => (unescUnits rest2).map (e.toNat :: ·)
    | none => none
  | c :: rest => (unescUnits rest).map (c.toNat :: ·)

/-- Second decoding pass: combine a high/low surrogate pair into one code
point, reject unpaired surrogates, and pass other units through.  The
optional argument carries a pending high surrogate. -/
def combineSurrogates : Option Nat → List Nat → Option (List Char)
  | none, [] => some []
  | some _, [] => none
  | none, n :: rest =>
    if 0xD800 ≤ n ∧ n < 0xDC00 then combineSurrogates (some n) rest
    else if 0xDC00 ≤ n ∧ n < 0xE000 then none
    else (combineSurrogates none rest).map (Char.ofNat n :: ·)
  | some hi, n :: rest =>
    if 0xDC00 ≤ n ∧ n < 0xE000 then
      (combineSurrogates none rest).map
        (Char.ofNat (0x10000 + (hi - 0xD800) * 0x400 + (n - 0xDC00)) :: ·)
    else none

/-- Decoder for the escaped interior of a JSON string literal: the inverse
of character-wise `escChar` on its image. -/
def unescChars (l : List Char) : Option (List Char) :=
  (unescUnits l).bind (combineSurrogates none)

/-- The code units `escChar c` stands for: the code point itself, or its
surrogate pair. -/
def charUnits (c : Char) : List Nat :=
  if c.toNat < 0x10000 then [c.toNat]
  else [0xD800 + (c.toNat - 0x10000) / 0x400, 0xDC00 + (c.toNat - 0x10000) % 0x400]

/-- Decoding the four hex digits of `hex4` recovers the value. -/
theorem hex4Val_hex4 (m : Nat) (h : m < 0x10000) :
    hex4Val (hexDigit (m / 4096 % 16)) (hexDigit (m / 256 % 16)) (hexDigit (m / 16 % 16))
      (hexDigit (m % 16)) = m := by
  unfold hex4Val
  rw [hexVal_hexDigit _ (by omega), hexVal_hexDigit _ (by omega),
    hexVal_hexDigit _ (by omega), hexVal_hexDigit _ (by omega)]
  omega

/-- The four characters of `hex4` are hex digits. -/
theorem hex4_all_hex (m : Nat) :
    (isHexCh (hexDigit (m / 4096 % 16)) && isHexCh (hexDigit (m / 256 % 16)) &&
      isHexCh (hexDigit (m / 16 % 16)) && isHexCh (hexDigit (m % 16))) = true := by
  rw [isHexCh_hexDigit _ (by omega), isHexCh_hexDigit _ (by omega),
    isHexCh_hexDigit _ (by omega), isHexCh_hexDigit _ (by omega)]
  rfl

/-- Shape of the escape for an unescaped control character. -/
theorem escChar_ctrl (c : Char) (h1 : c ≠ '\\') (h2 : c ≠ '"') (h3 : c ≠ '\n')
    (h4 : c ≠ '\r') (h5 : c ≠ '\t') (h6 : c ≠ '\x08') (h7 : c ≠ '\x0c')
    (h8 : c.toNat < 0x20) : escChar c = '\\' :: 'u' :: hex4 c.toNat := by
  unfold escChar
  simp [h1, h2, h3, h4, h5, h6, h7, h8]

/-- Shape of the escape for a plain printable ASCII character. -/
theorem escChar_plain (c : Char) (h1 : c ≠ '\\') (h2 : c ≠ '"')
    (h8 : ¬c.toNat < 0x20) (h9 : c.toNat < 0x7f) : escChar c = [c] := by
  have h3 : c ≠ '\n' := by intro h; subst h; simp at h8
  have h4 : c ≠ '\r' := by intro h; subst h; simp at h8
  have h5 : c ≠ '\t' := by intro h; subst h; simp at h8
  have h6 : c ≠ '\x08' := by intro h; subst h; simp at h8
  have h7 : c ≠ '\x0c' := by intro h; subst h; simp at h8
  unfold escChar
  simp [h1, h2, h3, h4, h5, h6, h7, h8, h9]

/-- Shape of the escape for a non-ASCII basic-plane character. -/
theorem escChar_bmp (c : Char) (h8 : ¬c.toNat < 0x20) (h9 : ¬c.toNat < 0x7f)
    (h10 : c.toNat < 0x10000) : escChar c = '\\' :: 'u' :: hex4 c.toNat := by
  have h1 : c ≠ '\\' := by intro h; subst h; simp at h9
  have h2 : c ≠ '"' := by intro h; subst h; simp at h9
  have h3 : c ≠ '\n' := by intro h; subst h; simp at h8
  have h4 : c ≠ '\r' := by intro h; subst h; simp at h8
  have h5 : c ≠ '\t' := by intro h; subst h; simp at h8
  have h6 : c ≠ '\x08' := by intro h; subst h; simp at h8
  have h7 : c ≠ '\x0c' := by intro h; subst h; simp at h8
  unfold escChar
  simp [h1, h2, h3, h4, h5, h6, h7, h8, h9, h10]

/-- Shape of the escape for a supplementary-plane character: a surrogate
pair. -/
theorem escChar_supp (c : Char) (h10 : ¬c.toNat < 0x10000) :
    escChar c = '\\' :: 'u' :: hex4 (0xD800 + (c.toNat - 0x10000) / 0x400) ++
      ('\\' :: 'u' :: hex4 (0xDC00 + (c.toNat - 0x10000) % 0x400)) := by
  have h1 : c ≠ '\\' := by intro h; subst h; simp at h10
  have h2 : c ≠ '"' := by intro h; subst h; simp at h10
  have h3 : c ≠ '\n' := by intro h; subst h; simp at h10
  have h4 : c ≠ '\r' := by intro h; subst h; simp at h10
  have h5 : c ≠ '\t' := by intro h; subst h; simp at h10
  have h6 : c ≠ '\x08' := by intro h; subst h; simp at h10
  have h7 : c ≠ '\x0c' := by intro h; subst h; simp at h10
  have h8 : ¬c.toNat < 0x20 := by omega
  have h9 : ¬c.toNat < 0x7f := by omega
  unfold escChar
  simp [h1, h2, h3, h4, h5, h6, h7, h8, h9, h10]

/-- The `\uXXXX` row of `unescUnits`, as a rewrite rule. -/
theorem unescUnits_u (h1 h2 h3 h4 : Char) (t : List Char)
    (hh : (isHexCh h1 && isHexCh h2 && isHexCh h3 && isHexCh h4) = true) :
    unescUnits ('\\' :: 'u' :: h1 :: h2 :: h3 :: h4 :: t) =
      (unescUnits t).map (hex4Val h1 h2 h3 h4 :: ·) := by
  simp [unescUnits, hh]

/-- The first pass inverts the character-wise escape, producing each
character's code units. -/
theorem unescUnits_flatMap_escChar (cs : List Char) :
    unescUnits (cs.flatMap escChar) = some (cs.flatMap charUnits) := by
  induction cs with
  | nil => rfl
  | cons c rest ih =>
    rw [List.flatMap_cons, List.flatMap_cons]
    by_cases h1 : c = '\\'
    · subst h1
      rw [show escChar '\\' = ['\\', '\\'] from rfl]
      simp [unescUnits, simpleUnesc, ih, charUnits]
    by_cases h2 : c = '"'
    · subst h2
      rw [show escChar '"' = ['\\', '"'] from rfl]
      simp [unescUnits, simpleUnesc, ih, charUnits]
    by_cases h3 : c = '\n'
    · subst h3
      rw [show escChar '\n' = ['\\', 'n'] from rfl]
      simp [unescUnits, simpleUnesc, ih, charUnits]
    by_cases h4 : c = '\r'
    · subst h4
      rw [show escChar '\r' = ['\\', 'r'] from rfl]
      simp [unescUnits, simpleUnesc, ih, charUnits]
    by_cases h5 : c = '\t'
    · subst h5
      rw [show escChar '\t' = ['\\', 't'] from rfl]
      simp [unescUnits, simpleUnesc, ih, charUnits]
    by_cases h6 : c = '\x08'
    · subst h6
      rw [show escChar '\x08' = ['\\', 'b'] from rfl]
      simp [unescUnits, simpleUnesc, ih, charUnits]
    by_cases h7 : c = '\x0c'
    · subst h7
      rw [show escChar '\x0c' = ['\\', 'f'] from rfl]
      simp [unescUnits, simpleUnesc, ih, charUnits]
    by_cases h8 : c.toNat < 0x20
    · rw [escChar_ctrl c h1 h2 h3 h4 h5 h6 h7 h8]
      have hval := hex4Val_hex4 c.toNat (by omega)
      have hhex := hex4_all_hex c.toNat
      have hcu : charUnits c = [c.toNat] := by unfold charUnits; rw [if_pos (by omega)]
      simp [hex4, unescUnits, hhex, hval, ih, hcu]
    by_cases h9 : c.toNat < 0x7f
    · rw [escChar_plain c h1 h2 h8 h9]
      have hcu : charUnits c = [c.toNat] := by unfold charUnits; rw [if_pos (by omega)]
      simp [unescUnits, ih, hcu, h1]
    by_cases h10 : c.toNat < 0x10000
    · rw [escChar_bmp c h8 h9 h10]
      have hval := hex4Val_hex4 c.toNat h10
      have hhex := hex4_all_hex c.toNat
      have hcu : charUnits c = [c.toNat] := by unfold charUnits; rw [if_pos h10]
      simp [hex4, unescUnits, hhex, hval, ih, hcu]
    · rw [escChar_supp c h10]
      have hlt : c.toNat < 0x110000 := by
        have hvc : Nat.isValidChar c.toNat := c.valid
        rcases hvc with hlt | ⟨_, hlt⟩ <;> omega
      have hdiv : (c.toNat - 0x10000) / 0x400 < 0x400 := by omega
      have hmod : (c.toNat - 0x10000) % 0x400 < 0x400 := Nat.mod_lt _ (by omega)
      have hval1 := hex4Val_hex4 (0xD800 + (c.toNat - 0x10000) / 0x400) (by omega)
      have hhex1 := hex4_all_hex (0xD800 + (c.toNat - 0x10000) / 0x400)
      have hval2 := hex4Val_hex4 (0xDC00 + (c.toNat - 0x10000) % 0x400) (by omega)
      have hhex2 := hex4_all_hex (0xDC00 + (c.toNat - 0x10000) % 0x400)
      have hcu : charUnits c = [0xD800 + (c.toNat - 0x10000) / 0x400,
          0xDC00 + (c.toNat - 0x10000) % 0x400] := by
        unfold charUnits
        rw [if_neg h10]
      rw [hcu]
      simp only [hex4, List.cons_append, List.nil_append, List.append_assoc]
      rw [unescUnits_u _ _ _ _ _ hhex1, unescUnits_u _ _ _ _ _ hhex2, ih, hval1, hval2]
      rfl

/-- The second pass inverts the splitting of characters into code units. -/
theorem combineSurrogates_flatMap_charUnits (cs : List Char) :
    combineSurrogates none (cs.flatMap charUnits) = some cs := by
  induction cs with
  | nil => rfl
  | cons c rest ih =>
    rw [List.flatMap_cons]
    by_cases h10 : c.toNat < 0x10000
    · rw [show charUnits c = [c.toNat] from by unfold charUnits; rw [if_pos h10]]
      have hns : ¬(0xD800 ≤ c.toNat ∧ c.toNat < 0xDC00) ∧
          ¬(0xDC00 ≤ c.toNat ∧ c.toNat < 0xE000) := by
        have hvc : Nat.isValidChar c.toNat := c.valid
        rcases hvc with hlt | ⟨hge, _⟩ <;> constructor <;> omega
      simp [combineSurrogates, hns.1, hns.2, ih, Char.ofNat_toNat]
    · rw [show charUnits c = [0xD800 + (c.toNat - 0x10000) / 0x400,
          0xDC00 + (c.toNat - 0x10000) % 0x400] from by unfold charUnits; rw [if_neg h10]]
      have hlt : c.toNat < 0x110000 := by
        have hvc : Nat.isValidChar c.toNat := c.valid
        rcases hvc with hlt | ⟨_, hlt⟩ <;> omega
      have hdiv : (c.toNat - 0x10000) / 0x400 < 0x400 := by omega
      have hmod : (c.toNat - 0x10000) % 0x400 < 0x400 := Nat.mod_lt _ (by omega)
      have hp1 : 0xD800 ≤ 0xD800 + (c.toNat - 0x10000) / 0x400 ∧
          0xD800 + (c.toNat - 0x10000) / 0x400 < 0xDC00 := by omega
      have hp2 : 0xDC00 ≤ 0xDC00 + (c.toNat - 0x10000) % 0x400 ∧
          0xDC00 + (c.toNat - 0x10000) % 0x400 < 0xE000 := by omega
      have hfin : 0x10000 + (c.toNat - 0x10000) / 0x400 * 0x400 +
          (c.toNat - 0x10000) % 0x400 = c.toNat := by
        have := Nat.div_add_mod (c.toNat - 0x10000) 0x400
        omega
      simp only [combineSurrogates, List.cons_append, List.nil_append, hp1, if_pos hp1,
        if_pos hp2, ih]
      simp [hfin, Char.ofNat_toNat]
      exact ih

/-- `unescChars` inverts the character-wise escape of `strText`. -/
theorem unescChars_flatMap_escChar (cs : List Char) :
    unescChars (cs.flatMap escChar) = some cs := by
  unfold unescChars
  rw [unescUnits_flatMap_escChar]
  simpa using combineSurrogates_flatMap_charUnits cs

/-! #### Scanning a string literal from the right

Reading the reversed input, the scanner walks back over the escaped
interior of a string literal collecting characters until it reaches the
quote that opened the literal.  A quote inside the interior is escaped,
which from the right shows up as an odd-length backslash run after it;
the opening quote is followed (in reversed order) by whatever preceded the
literal, which in every position a literal occupies starts with a
non-backslash, giving an even (zero) run. -/

/-- Length of the leading backslash run. -/
def leadBs : List Char → Nat
  | [] => 0
  | c :: r => if c = '\\' then leadBs r + 1 else 0

/-- The reversed-string scanner: collect interior characters (rebuilding
the original order in `acc`) until an unescaped quote. -/
def rstrAux : List Char → List Char → Option (List Char × List Char)
  | _, [] => none
  | acc, c :: rest =>
    if c = '"' then
      if leadBs rest % 2 = 0 then some (acc, rest)
      else rstrAux ('"' :: acc) rest
    else rstrAux (c :: acc) rest

/-- The reversed escape of one character. -/
def revEsc (c : Char) : List Char := (escChar c).reverse

/-- A hex digit character is not a quote and not a backslash. -/
theorem hexDigit_ne (n : Nat) (h : n < 16) : hexDigit n ≠ '"' ∧ hexDigit n ≠ '\\' := by
  have ht := hexDigit_toNat n h
  constructor <;> intro he <;> rw [he] at ht <;> revert ht <;> split <;> intro ht <;>
    simp at ht <;> omega

/-- A non-backslash head makes the leading run empty. -/
theorem leadBs_cons_ne (h : Char) (r : List Char) (hne : h ≠ '\\') : leadBs (h :: r) = 0 := by
  simp [leadBs, hne]

/-- For any character other than a backslash, the reversed escape starts
with a non-backslash character (the last character of an escape is a
quote, a letter, a hex digit, or the plain character itself). -/
theorem revEsc_head_ne_bs (c : Char) (h1 : c ≠ '\\') :
    ∃ h hs, revEsc c = h :: hs ∧ h ≠ '\\' := by
  unfold revEsc
  by_cases h2 : c = '"'
  · subst h2; exact ⟨'"', ['\\'], rfl, by decide⟩
  by_cases h3 : c = '\n'
  · subst h3; exact ⟨'n', ['\\'], rfl, by decide⟩
  by_cases h4 : c = '\r'
  · subst h4; exact ⟨'r', ['\\'], rfl, by decide⟩
  by_cases h5 : c = '\t'
  · subst h5; exact ⟨'t', ['\\'], rfl, by decide⟩
  by_cases h6 : c = '\x08'
  · subst h6; exact ⟨'b', ['\\'], rfl, by decide⟩
  by_cases h7 : c = '\x0c'
  · subst h7; exact ⟨'f', ['\\'], rfl, by decide⟩
  by_cases h8 : c.toNat < 0x20
  · rw [escChar_ctrl c h1 h2 h3 h4 h5 h6 h7 h8]
    exact ⟨hexDigit (c.toNat % 16),
      [hexDigit (c.toNat / 16 % 16), hexDigit (c.toNat / 256 % 16),
        hexDigit (c.toNat / 4096 % 16), 'u', '\\'],
      by simp [hex4], (hexDigit_ne _ (by omega)).2⟩
  by_cases h9 : c.toNat < 0x7f
  · rw [escChar_plain c h1 h2 h8 h9]
    exact ⟨c, [], rfl, h1⟩
  by_cases h10 : c.toNat < 0x10000
  · rw [escChar_bmp c h8 h9 h10]
    exact ⟨hexDigit (c.toNat % 16),
      [hexDigit (c.toNat / 16 % 16), hexDigit (c.toNat / 256 % 16),
        hexDigit (c.toNat / 4096 % 16), 'u', '\\'],
      by simp [hex4], (hexDigit_ne _ (by omega)).2⟩
  · rw [escChar_supp c h10]
    exact ⟨hexDigit ((0xDC00 + (c.toNat - 0x10000) % 0x400) % 16),
      [hexDigit ((0xDC00 + (c.toNat - 0x10000) % 0x400) / 16 % 16),
        hexDigit ((0xDC00 + (c.toNat - 0x10000) % 0x400) / 256 % 16),
        hexDigit ((0xDC00 + (c.toNat - 0x10000) % 0x400) / 4096 % 16), 'u', '\\',
        hexDigit ((0xD800 + (c.toNat - 0x10000) / 0x400) % 16),
        hexDigit ((0xD800 + (c.toNat - 0x10000) / 0x400) / 16 % 16),
        hexDigit ((0xD800 + (c.toNat - 0x10000) / 0x400) / 256 % 16),
        hexDigit ((0xD800 + (c.toNat - 0x10000) / 0x400) / 4096 % 16), 'u', '\\'],
      by simp [hex4], (hexDigit_ne _ (by omega)).2⟩

/-- Reversed escapes glued to an even-run tail keep the run even: each
codeword either contributes a full pair of backslashes (an escaped
backslash) or begins the run afresh with a non-backslash. -/
theorem leadBs_flat_even : ∀ (ds t : List Char), leadBs t % 2 = 0 →
    leadBs (ds.flatMap revEsc ++ t) % 2 = 0 := by
  intro ds
  induction ds with
  | nil => intro t ht; simpa using ht
  | cons c ds ih =>
    intro t ht
    rw [List.flatMap_cons, List.append_assoc]
    by_cases h1 : c = '\\'
    · subst h1
      rw [show revEsc '\\' = ['\\', '\\'] from rfl]
      have hrec := ih t ht
      simp only [List.cons_append, List.nil_append]
      rw [show leadBs ('\\' :: '\\' :: (ds.flatMap revEsc ++ t)) =
        leadBs (ds.flatMap revEsc ++ t) + 2 from by simp [leadBs]]
      omega
    · obtain ⟨h, hs, he, hne⟩ := revEsc_head_ne_bs c h1
      rw [he, List.cons_append, leadBs_cons_ne h _ hne]

/-- The scanner steps over any block of non-quote characters, prepending
them (reversed) to the accumulator. -/
theorem rstrAux_steps_ne : ∀ (xs : List Char), (∀ x ∈ xs, x ≠ '"') →
    ∀ (acc r : List Char), rstrAux acc (xs ++ r) = rstrAux (xs.reverse ++ acc) r := by
  intro xs
  induction xs with
  | nil => intro _ acc r; simp
  | cons x xs ih =>
    intro hx acc r
    have hxq : x ≠ '"' := hx x (by simp)
    rw [List.cons_append, show rstrAux acc (x :: (xs ++ r)) = rstrAux (x :: acc) (xs ++ r)
      from by simp [rstrAux, hxq]]
    rw [ih (fun y hy => hx y (by simp [hy])) (x :: acc) r]
    simp

/-- The scanner steps over a content quote when the following run is
odd. -/
theorem rstrAux_step_quote (acc r : List Char) (hodd : leadBs r % 2 = 1) :
    rstrAux acc ('"' :: r) = rstrAux ('"' :: acc) r := by
  simp [rstrAux]
  intro h
  omega

/-- No character of a reversed escape is an unescaped quote from the
scanner's point of view, except for the escaped quote itself, whose run is
odd; the scanner therefore crosses `revEsc c` collecting exactly
`escChar c`. -/
theorem rstrAux_cross_revEsc (c : Char) (acc rest : List Char)
    (heven : leadBs rest % 2 = 0) :
    rstrAux acc (revEsc c ++ rest) = rstrAux (escChar c ++ acc) rest := by
  by_cases h2 : c = '"'
  · subst h2
    rw [show revEsc '"' = ['"', '\\'] from rfl]
    have hodd : leadBs ('\\' :: rest) % 2 = 1 := by
      rw [show leadBs ('\\' :: rest) = leadBs rest + 1 from by simp [leadBs]]
      omega
    simp only [List.cons_append, List.nil_append]
    rw [rstrAux_step_quote acc _ hodd]
    rw [show ('\\' :: rest : List Char) = ['\\'] ++ rest from rfl,
      rstrAux_steps_ne ['\\'] (by decide) ('"' :: acc) rest]
    rfl
  · have hq : ∀ m : Nat, hexDigit (m % 16) ≠ '"' :=
      fun m => (hexDigit_ne (m % 16) (Nat.mod_lt m (by omega))).1
    have hnq : ∀ x ∈ revEsc c, x ≠ '"' := by
      unfold revEsc
      by_cases h1 : c = '\\'
      · subst h1; decide
      by_cases h3 : c = '\n'
      · subst h3; decide
      by_cases h4 : c = '\r'
      · subst h4; decide
      by_cases h5 : c = '\t'
      · subst h5; decide
      by_cases h6 : c = '\x08'
      · subst h6; decide
      by_cases h7 : c = '\x0c'
      · subst h7; decide
      by_cases h8 : c.toNat < 0x20
      · rw [escChar_ctrl c h1 h2 h3 h4 h5 h6 h7 h8]
        simp only [hex4, List.cons_append, List.nil_append]
        refine List.forall_mem_cons.mpr ⟨hq _, ?_⟩
        refine List.forall_mem_cons.mpr ⟨hq _, ?_⟩
        refine List.forall_mem_cons.mpr ⟨hq _, ?_⟩
        refine List.forall_mem_cons.mpr ⟨hq _, ?_⟩
        refine List.forall_mem_cons.mpr ⟨by decide, ?_⟩
        refine List.forall_mem_cons.mpr ⟨by decide, ?_⟩
        simp
      by_cases h9 : c.toNat < 0x7f
      · rw [escChar_plain c h1 h2 h8 h9]
        intro x hx
        simp at hx
        subst hx
        exact h2
      by_cases h10 : c.toNat < 0x10000
      · rw [escChar_bmp c h8 h9 h10]
        simp only [hex4, List.cons_append, List.nil_append]
        refine List.forall_mem_cons.mpr ⟨hq _, ?_⟩
        refine List.forall_mem_cons.mpr ⟨hq _, ?_⟩
        refine List.forall_mem_cons.mpr ⟨hq _, ?_⟩
        refine List.forall_mem_cons.mpr ⟨hq _, ?_⟩
        refine List.forall_mem_cons.mpr ⟨by decide, ?_⟩
        refine List.forall_mem_cons.mpr ⟨by decide, ?_⟩
        simp
      · rw [escChar_supp c h10]
        simp only [hex4, List.cons_append, List.nil_append]
        refine List.forall_mem_cons.mpr ⟨hq _, ?_⟩
        refine List.forall_mem_cons.mpr ⟨hq _, ?_⟩
        refine List.forall_mem_cons.mpr ⟨hq _, ?_⟩
        refine List.forall_mem_cons.mpr ⟨hq _, ?_⟩
        refine List.forall_mem_cons.mpr ⟨by decide, ?_⟩
        refine List.forall_mem_cons.mpr ⟨by decide, ?_⟩
        refine List.forall_mem_cons.mpr ⟨hq _, ?_⟩
        refine List.forall_mem_cons.mpr ⟨hq _, ?_⟩
        refine List.forall_mem_cons.mpr ⟨hq _, ?_⟩
        refine List.forall_mem_cons.mpr ⟨hq _, ?_⟩
        refine List.forall_mem_cons.mpr ⟨by decide, ?_⟩
        refine List.forall_mem_cons.mpr ⟨by decide, ?_⟩
        simp
    rw [rstrAux_steps_ne (revEsc c) hnq acc rest]
    unfold revEsc
    rw [List.reverse_reverse]

/-- The scanner consumes a whole sequence of reversed escapes, stopping at
the terminating quote when the run beyond it is even. -/
theorem rstrAux_scan_aux : ∀ (ds acc t : List Char), leadBs t % 2 = 0 →
    rstrAux acc (ds.flatMap revEsc ++ '"' :: t) =
      some (ds.reverse.flatMap escChar ++ acc, t) := by
  intro ds
  induction ds with
  | nil =>
    intro acc t ht
    simp [rstrAux, ht]
  | cons c ds ih =>
    intro acc t ht
    rw [List.flatMap_cons, List.append_assoc]
    have heven : leadBs (ds.flatMap revEsc ++ '"' :: t) % 2 = 0 :=
      leadBs_flat_even ds ('"' :: t) (by simp [leadBs])
    rw [rstrAux_cross_revEsc c acc _ heven, ih (escChar c ++ acc) t ht]
    simp

/-- The scanner started after the closing quote of a serialized string
literal consumes exactly the reversed escaped interior: it stops at the
opening quote (whose following run, starting with whatever boundary
character preceded the literal, is even) and returns the interior in
original order. -/
theorem rstrAux_strText (cs : List Char) (acc t : List Char) (ht : leadBs t % 2 = 0) :
    rstrAux acc ((cs.flatMap escChar).reverse ++ '"' :: t) =
      some (cs.flatMap escChar ++ acc, t) := by
  have hrev : (cs.flatMap escChar).reverse = cs.reverse.flatMap revEsc := by
    rw [List.reverse_flatMap]
    rfl
  rw [hrev, rstrAux_scan_aux cs.reverse acc t ht]
  simp

/-! ### A right-to-left parser for the serialized text

Injectivity of the pre-digest string `f"..."` joining the query, a colon
and `json.dumps(params, sort_keys=True)` is established by exhibiting a
parser that reads the reversed string and recovers the parameters and the
query.  The query may itself contain colons and JSON-shaped text, so no
left-to-right split is unambiguous; from the right, however, the
serialized parameters form one complete JSON value followed by the
separating colon, and a deterministic parser recovers them. -/

/-- Parse of one string literal from the right: the head must be the
closing quote; the scanner collects the escaped interior up to the opening
quote and the decoder restores the original characters. -/
def rstr : List Char → Option (String × List Char)
  | [] => none
  | c :: rest =>
    if c = '"' then
      (rstrAux [] rest).bind fun pr =>
        (unescChars pr.1).map fun cs => (String.mk cs, pr.2)
    else none

/-- `rstr` is a retraction of the string renderer: reading the reversed
rendering of `s`, followed by anything whose leading backslash run is
even, yields `s` and that remainder. -/
theorem rstr_strText (s : String) (t : List Char) (ht : leadBs t % 2 = 0) :
    rstr ((strText s).reverse ++ t) = some (s, t) := by
  have h1 : (strText s).reverse ++ t =
      '"' :: ((s.data.flatMap escChar).reverse ++ '"' :: t) := by
    simp [strText]
  rw [h1, rstr, if_pos rfl, rstrAux_strText s.data [] t ht]
  simp [unescChars_flatMap_escChar]

/-- Characters that may immediately precede a serialized value (and are
seen just after it in the reversed reading): the top-level separating
colon, an opening bracket, or the space of a separator.  What the parser
needs of them: none is a digit, a minus sign, or a backslash. -/
def goodB (b : Char) : Bool := !isDigitCh b && !(b == '-') && !(b == '\\')

/-- Unpacking of the boundary condition. -/
theorem goodB_spec (b : Char) (hb : goodB b = true) :
    isDigitCh b = false ∧ b ≠ '-' ∧ b ≠ '\\' := by
  unfold goodB at hb
  refine ⟨?_, ?_, ?_⟩
  · cases h : isDigitCh b
    · rfl
    · rw [h] at hb; simp at hb
  · intro he; subst he; simp at hb
  · intro he; subst he; simp at hb

/-- `takeWhile`/`dropWhile` split an append whose left part satisfies the
predicate and whose right part starts with a failing character. -/
theorem takeWhile_all_append (p : Char → Bool) (l rest : List Char)
    (hl : ∀ c ∈ l, p c = true) (hrest : ∀ c cs, rest = c :: cs → p c = false) :
    (l ++ rest).takeWhile p = l ∧ (l ++ rest).dropWhile p = rest := by
  induction l with
  | nil =>
    cases rest with
    | nil => simp
    | cons c cs => simp [List.takeWhile_cons, List.dropWhile_cons, hrest c cs rfl]
  | cons a l ih =>
    have ha : p a = true := hl a (by simp)
    have ih2 := ih fun c hc => hl c (by simp [hc])
    simp [List.takeWhile_cons, List.dropWhile_cons, ha, ih2.1, ih2.2]

/-- The reversed decimal text starts with a digit (the least significant
one). -/
theorem intText_rev_head (n : Int) :
    ∃ d ds, (intText n).reverse = d :: ds ∧ isDigitCh d = true := by
  unfold intText
  split
  · obtain ⟨c, cs, hc, hdig⟩ := natDigits_rev_head (-n).toNat
    exact ⟨c, cs ++ ['-'], by simp [hc], hdig⟩
  · obtain ⟨c, cs, hc, hdig⟩ := natDigits_rev_head n.toNat
    exact ⟨c, cs, hc, hdig⟩

/-- Parse of a decimal integer from the right: a maximal digit run, then
an optional minus sign. -/
def rint (l : List Char) : Option (Int × List Char) :=
  let ds := l.takeWhile isDigitCh
  let rest := l.dropWhile isDigitCh
  if ds.isEmpty then none
  else if rest.head? = some '-' then
    some (-(natFromDigits ds.reverse : Int), rest.tail)
  else some ((natFromDigits ds.reverse : Int), rest)

/-- `rint` is a retraction of the integer renderer when the character
after the reversed text is not a digit and not a minus sign. -/
theorem rint_intText (n : Int) (b : Char) (rest : List Char) (hb : goodB b = true) :
    rint ((intText n).reverse ++ b :: rest) = some (n, b :: rest) := by
  obtain ⟨hbd, hbm, _⟩ := goodB_spec b hb
  unfold intText
  split
  · rename_i hneg
    have hall : ∀ c ∈ (natDigits (-n).toNat).reverse, isDigitCh c = true := by
      intro c hc
      exact natDigits_all_digits (-n).toNat c (List.mem_reverse.mp hc)
    have hsplit := takeWhile_all_append isDigitCh (natDigits (-n).toNat).reverse
      ('-' :: b :: rest) hall
      (fun c cs hcc => by rw [List.cons.injEq] at hcc; rw [← hcc.1]; rfl)
    have hform : ('-' :: natDigits (-n).toNat).reverse ++ b :: rest =
        (natDigits (-n).toNat).reverse ++ '-' :: b :: rest := by simp
    rw [hform]
    unfold rint
    simp only [hsplit.1, hsplit.2]
    have hne : (natDigits (-n).toNat).reverse.isEmpty = false := by
      cases hh : (natDigits (-n).toNat).reverse with
      | nil => exact absurd (by simpa using hh) (natDigits_ne_nil (-n).toNat)
      | cons x xs => rfl
    rw [hne]
    simp only [Bool.false_eq_true, if_false, List.head?_cons, List.tail_cons, if_pos rfl]
    rw [List.reverse_reverse, natFromDigits_natDigits]
    have : -(((-n).toNat : Int)) = n := by omega
    rw [this]
    simp
  · rename_i hpos
    have hall : ∀ c ∈ (natDigits n.toNat).reverse, isDigitCh c = true := by
      intro c hc
      exact natDigits_all_digits n.toNat c (List.mem_reverse.mp hc)
    have hsplit := takeWhile_all_append isDigitCh (natDigits n.toNat).reverse
      (b :: rest) hall
      (fun c cs hcc => by rw [List.cons.injEq] at hcc; rw [← hcc.1]; exact hbd)
    unfold rint
    simp only [hsplit.1, hsplit.2]
    have hne : (natDigits n.toNat).reverse.isEmpty = false := by
      cases hh : (natDigits n.toNat).reverse with
      | nil => exact absurd (by simpa using hh) (natDigits_ne_nil n.toNat)
      | cons x xs => rfl
    rw [hne]
    have hbm2 : (List.head? (b :: rest) = some '-') = False := by
      simp only [List.head?_cons, Option.some.injEq]
      exact eq_false hbm
    simp only [Bool.false_eq_true, if_false, hbm2]
    rw [List.reverse_reverse, natFromDigits_natDigits]
    have : ((n.toNat : Int)) = n := by omega
    rw [this]

mutual

/-- Node count of a parameter value, the fuel budget of the parser. -/
def pSizeV : PValue → Nat
  | .pNull => 1
  | .pBool _ => 1
  | .pInt _ => 1
  | .pStr _ => 1
  | .pList l => sizeL l + 1
  | .pDict l => sizeD l + 1

/-- Node count of a list of values. -/
def sizeL : List PValue → Nat
  | [] => 0
  | v :: r => pSizeV v + sizeL r + 1

/-- Node count of a list of entries. -/
def sizeD : List (String × PValue) → Nat
  | [] => 0
  | (_, v) :: r => pSizeV v + sizeD r + 1

end

/-- Strictly increasing key list, code-point order: the canonical order a
Python dict of these keys is rendered in under `sort_keys=True`. -/
def keysSortedB : List String → Bool
  | [] => true
  | [_] => true
  | a :: b :: r => keyLt a b && keysSortedB (b :: r)

mutual

/-- Canonical value: every mapping inside lists its entries in strictly
increasing key order.  Every Python value has exactly one canonical
rendering-equivalent representative, since `json.dumps(..., sort_keys=True)`
ignores entry order and dict keys are unique. -/
def canonV : PValue → Bool
  | .pNull => true
  | .pBool _ => true
  | .pInt _ => true
  | .pStr _ => true
  | .pList l => canonL l
  | .pDict l => keysSortedB (l.map Prod.fst) && canonD l

/-- Canonicity of every element of a list. -/
def canonL : List PValue → Bool
  | [] => true
  | v :: r => canonV v && canonL r

/-- Canonicity of every value of an entry list. -/
def canonD : List (String × PValue) → Bool
  | [] => true
  | (_, v) :: r => canonV v && canonD r

end

/-- Every value has positive size. -/
theorem pSizeV_pos (v : PValue) : 1 ≤ pSizeV v := by
  cases v <;> simp [pSizeV]

/-- Size of a list with its last element split off. -/
theorem sizeL_concat (l : List PValue) (v : PValue) :
    sizeL (l ++ [v]) = sizeL l + pSizeV v + 1 := by
  induction l with
  | nil => simp [sizeL]
  | cons w r ih => simp [sizeL, ih]; omega

/-- Size of an entry list with its last entry split off. -/
theorem sizeD_concat (l : List (String × PValue)) (k : String) (v : PValue) :
    sizeD (l ++ [(k, v)]) = sizeD l + pSizeV v + 1 := by
  induction l with
  | nil => simp [sizeD]
  | cons e r ih =>
    obtain ⟨ek, ev⟩ := e
    simp [sizeD, ih]
    omega

/-- Canonicity distributes over a split list. -/
theorem canonL_append (a b : List PValue) :
    canonL (a ++ b) = (canonL a && canonL b) := by
  induction a with
  | nil => simp [canonL]
  | cons v r ih => simp [canonL, ih, Bool.and_assoc]

/-- Canonicity distributes over a split entry list. -/
theorem canonD_append (a b : List (String × PValue)) :
    canonD (a ++ b) = (canonD a && canonD b) := by
  induction a with
  | nil => simp [canonD]
  | cons e r ih =>
    obtain ⟨ek, ev⟩ := e
    simp [canonD, ih, Bool.and_assoc]

/-- Key comparison is asymmetric (on character lists). -/
theorem clistLt_asymm (a b : List Char) (h : clistLt a b = true) :
    clistLt b a = false := by
  induction a generalizing b with
  | nil =>
    cases b with
    | nil => simp [clistLt] at h
    | cons c cs => simp [clistLt]
  | cons x xs ih =>
    cases b with
    | nil => simp [clistLt] at h
    | cons y ys =>
      unfold clistLt at h ⊢
      by_cases h1 : x.toNat < y.toNat
      · rw [if_neg (by omega), if_pos h1]
      · rw [if_neg h1] at h
        by_cases h2 : y.toNat < x.toNat
        · rw [if_pos h2] at h
          exact absurd h (by simp)
        · rw [if_neg h2] at h
          rw [if_neg (by omega), if_neg (by omega)]
          exact ih ys h

/-- Key comparison is asymmetric. -/
theorem keyLt_asymm (a b : String) (h : keyLt a b = true) : keyLt b a = false :=
  clistLt_asymm a.data b.data h

/-- Inserting an entry into a list it already precedes key-wise leaves it
in front. -/
theorem sortEntries_sorted_id (l : List (String × List Char))
    (h : keysSortedB (l.map Prod.fst) = true) : sortEntries l = l := by
  induction l with
  | nil => rfl
  | cons e rest ih =>
    cases rest with
    | nil =>
      show insortEntry e (sortEntries []) = [e]
      rfl
    | cons f r =>
      have hh : keyLt e.1 f.1 = true ∧ keysSortedB (f.1 :: r.map Prod.fst) = true := by
        have := h
        unfold keysSortedB at this
        simp only [List.map_cons] at this ⊢
        cases r with
        | nil =>
          simp only [List.map_nil]
          constructor
          · simpa [keysSortedB] using this
          · rfl
        | cons g s =>
          simp only [List.map_cons, Bool.and_eq_true] at this ⊢
          exact this
      show insortEntry e (sortEntries (f :: r)) = e :: f :: r
      rw [ih hh.2]
      show (if keyLt f.1 e.1 then f :: insortEntry e r else e :: f :: r) = e :: f :: r
      rw [keyLt_asymm e.1 f.1 hh.1]
      simp

/-- Splitting the last element off the item text. -/
theorem dumpsItems_concat (init : List PValue) (v : PValue) (h : init ≠ []) :
    dumpsItems (init ++ [v]) = dumpsItems init ++ ',' :: ' ' :: dumpsVal v := by
  induction init with
  | nil => exact absurd rfl h
  | cons w r ih =>
    cases r with
    | nil => simp [dumpsItems]
    | cons x s =>
      have h2 := ih (by simp)
      simp only [List.cons_append] at h2 ⊢
      rw [dumpsItems, h2, dumpsItems]
      simp

/-- Entry rendering distributes over a split. -/
theorem renderEntries_append (a b : List (String × PValue)) :
    renderEntries (a ++ b) = renderEntries a ++ renderEntries b := by
  induction a with
  | nil => rfl
  | cons e r ih =>
    obtain ⟨k, v⟩ := e
    simp only [List.cons_append]
    rw [renderEntries]
    rw [ih]
    rfl

/-- Splitting the last entry off the joined entry text. -/
theorem joinEntries_concat (es : List (String × List Char)) (k : String) (cs : List Char)
    (h : es ≠ []) :
    joinEntries (es ++ [(k, cs)]) =
      joinEntries es ++ ',' :: ' ' :: (strText k ++ ':' :: ' ' :: cs) := by
  induction es with
  | nil => exact absurd rfl h
  | cons e r ih =>
    cases r with
    | nil =>
      obtain ⟨ek, ecs⟩ := e
      simp [joinEntries]
    | cons f s =>
      obtain ⟨ek, ecs⟩ := e
      have h2 := ih (by simp)
      simp only [List.cons_append] at h2 ⊢
      rw [joinEntries, h2, joinEntries]
      simp

/-- Digits are none of the dispatch or bracket characters. -/
theorem isDigitCh_ne (c : Char) (h : isDigitCh c = true) :
    c ≠ '"' ∧ c ≠ ']' ∧ c ≠ '\x7d' ∧ c ≠ 'l' ∧ c ≠ 'e' ∧ c ≠ '[' ∧ c ≠ '\x7b' := by
  refine ⟨?_, ?_, ?_, ?_, ?_, ?_, ?_⟩ <;> intro he <;> rw [he] at h <;>
    exact absurd h (by decide)

/-- The last character of a serialized value — the head of its reversed
text — is never an opening bracket or an opening brace. -/
theorem dumpsVal_rev_head (v : PValue) :
    ∃ e es, (dumpsVal v).reverse = e :: es ∧ e ≠ '[' ∧ e ≠ '\x7b' := by
  cases v with
  | pNull => exact ⟨'l', ['l', 'u', 'n'], rfl, by decide, by decide⟩
  | pBool b =>
    cases b with
    | true => exact ⟨'e', ['u', 'r', 't'], rfl, by decide, by decide⟩
    | false => exact ⟨'e', ['s', 'l', 'a', 'f'], rfl, by decide, by decide⟩
  | pInt n =>
    obtain ⟨d, ds, hd, hdig⟩ := intText_rev_head n
    refine ⟨d, ds, hd, ?_, ?_⟩
    · exact (isDigitCh_ne d hdig).2.2.2.2.2.1
    · exact (isDigitCh_ne d hdig).2.2.2.2.2.2
  | pStr s =>
    refine ⟨'"', (s.data.flatMap escChar).reverse ++ ['"'], ?_, by decide, by decide⟩
    simp [dumpsVal, strText]
  | pList l =>
    refine ⟨']', (dumpsItems l).reverse ++ ['['], ?_, by decide, by decide⟩
    simp [dumpsVal]
  | pDict l =>
    refine ⟨'\x7d', (joinEntries (sortEntries (renderEntries l))).reverse ++ ['\x7b'],
      ?_, by decide, by decide⟩
    simp [dumpsVal]

/-- The last character of a nonempty item text is never an opening
bracket or brace. -/
theorem dumpsItems_rev_head (l : List PValue) (h : l ≠ []) :
    ∃ e es, (dumpsItems l).reverse = e :: es ∧ e ≠ '[' ∧ e ≠ '\x7b' := by
  obtain h2 | ⟨init, v, rfl⟩ := l.eq_nil_or_concat
  · exact absurd h2 h
  obtain ⟨e, es, he, h1, h2⟩ := dumpsVal_rev_head v
  cases init with
  | nil => exact ⟨e, es, by simpa [dumpsItems] using he, h1, h2⟩
  | cons w r =>
    refine ⟨e, es ++ (' ' :: ',' :: (dumpsItems (w :: r)).reverse), ?_, h1, h2⟩
    simp only [List.concat_eq_append]
    rw [dumpsItems_concat (w :: r) v (by simp)]
    simp [he]

/-- The last character of a nonempty rendered entry text is never an
opening bracket or brace. -/
theorem entriesText_rev_head (l : List (String × PValue)) (h : l ≠ []) :
    ∃ e es, (joinEntries (renderEntries l)).reverse = e :: es ∧ e ≠ '[' ∧ e ≠ '\x7b' := by
  obtain h2 | ⟨init, kv, rfl⟩ := l.eq_nil_or_concat
  · exact absurd h2 h
  obtain ⟨k, v⟩ := kv
  obtain ⟨e, es, he, h1, h2⟩ := dumpsVal_rev_head v
  cases init with
  | nil =>
    refine ⟨e, es ++ (' ' :: ':' :: (strText k).reverse), ?_, h1, h2⟩
    show (joinEntries (renderEntries ((k, v) :: []))).reverse = _
    rw [renderEntries, renderEntries, joinEntries]
    simp [he]
  | cons w r =>
    refine ⟨e, es ++ (' ' :: ':' ::
      ((strText k).reverse ++ ' ' :: ',' ::
        (joinEntries (renderEntries (w :: r))).reverse)), ?_, h1, h2⟩
    simp only [List.concat_eq_append]
    rw [renderEntries_append]
    rw [show renderEntries [(k, v)] = [(k, dumpsVal v)] from rfl]
    rw [joinEntries_concat (renderEntries (w :: r)) k (dumpsVal v)
      (by obtain ⟨wk, wv⟩ := w; rw [renderEntries]; simp)]
    simp [he]

mutual

/-- The right-to-left value parser.  Reading the reversed serialization,
the head character decides the shape: a closing quote starts a string, a
closing bracket a list, a closing brace a mapping, the final letters of
`null` / `true` / `false` those literals, and a digit a number.  Fuel
bounds the recursion depth; the node count of the value suffices. -/
def rparseVal : Nat → List Char → Option (PValue × List Char)
  | 0, _ => none
  | _ + 1, [] => none
  | f + 1, c :: rest =>
    if c = '"' then
      (rstr (c :: rest)).map fun pr => (PValue.pStr pr.1, pr.2)
    else if c = ']' then
      if rest.head? = some '[' then some (.pList [], rest.tail)
      else (rparseItems f rest).map fun pr => (PValue.pList pr.1, pr.2)
    else if c = '\x7d' then
      if rest.head? = some '\x7b' then some (.pDict [], rest.tail)
      else (rparseEntries f rest).map fun pr => (PValue.pDict pr.1, pr.2)
    else if c = 'l' then
      if rest.take 3 = ['l', 'u', 'n'] then some (.pNull, rest.drop 3) else none
    else if c = 'e' then
      if rest.take 3 = ['u', 'r', 't'] then some (.pBool true, rest.drop 3)
      else if rest.take 4 = ['s', 'l', 'a', 'f'] then some (.pBool false, rest.drop 4)
      else none
    else if isDigitCh c then
      (rint (c :: rest)).map fun pr => (PValue.pInt pr.1, pr.2)
    else none

/-- The right-to-left item-sequence parser: one value, then either the
list's opening bracket (consumed) or the reversed `", "` separator and
the preceding items. -/
def rparseItems : Nat → List Char → Option (List PValue × List Char)
  | 0, _ => none
  | f + 1, l =>
    (rparseVal f l).bind fun pr =>
      if pr.2.head? = some '[' then some ([pr.1], pr.2.tail)
      else if pr.2.take 2 = [' ', ','] then
        (rparseItems f (pr.2.drop 2)).map fun qr => (qr.1 ++ [pr.1], qr.2)
      else none

/-- The right-to-left entry-sequence parser: one value, the reversed
`": "` separator, the key string, then either the mapping's opening brace
(consumed) or the reversed `", "` separator and the preceding entries. -/
def rparseEntries : Nat → List Char → Option (List (String × PValue) × List Char)
  | 0, _ => none
  | f + 1, l =>
    (rparseVal f l).bind fun pr =>
      if pr.2.take 2 = [' ', ':'] then
        (rstr (pr.2.drop 2)).bind fun kr =>
          if kr.2.head? = some '\x7b' then some ([(kr.1, pr.1)], kr.2.tail)
          else if kr.2.take 2 = [' ', ','] then
            (rparseEntries f (kr.2.drop 2)).map fun qr =>
              (qr.1 ++ [(kr.1, pr.1)], qr.2)
          else none
      else none

end

/-- Rendering entries preserves the key list. -/
theorem renderEntries_keys (l : List (String × PValue)) :
    (renderEntries l).map Prod.fst = l.map Prod.fst := by
  induction l with
  | nil => rfl
  | cons e r ih =>
    obtain ⟨k, v⟩ := e
    rw [renderEntries]
    simp [ih]

/-- The parser is a retraction of the serializer: reading the reversed
rendering of a canonical value with enough fuel, followed by a boundary
character, returns exactly that value; likewise for nonempty item and
entry sequences followed by their opening bracket or brace. -/
theorem rparse_retr (f : Nat) :
    (∀ p b rest, canonV p = true → pSizeV p ≤ f → goodB b = true →
        rparseVal f ((dumpsVal p).reverse ++ b :: rest) = some (p, b :: rest)) ∧
    (∀ l rest, l ≠ [] → canonL l = true → sizeL l ≤ f →
        rparseItems f ((dumpsItems l).reverse ++ '[' :: rest) = some (l, rest)) ∧
    (∀ l rest, l ≠ [] → canonD l = true → sizeD l ≤ f →
        rparseEntries f ((joinEntries (renderEntries l)).reverse ++ '\x7b' :: rest) =
          some (l, rest)) := by
  induction f with
  | zero =>
    refine ⟨?_, ?_, ?_⟩
    · intro p b rest _ hsz _
      exact absurd hsz (by have := pSizeV_pos p; omega)
    · intro l rest hne _ hsz
      cases l with
      | nil => exact absurd rfl hne
      | cons v r =>
        simp [sizeL] at hsz
    · intro l rest hne _ hsz
      cases l with
      | nil => exact absurd rfl hne
      | cons e r =>
        obtain ⟨k, v⟩ := e
        simp [sizeD] at hsz
  | succ f ih =>
    obtain ⟨ihv, ihi, ihe⟩ := ih
    refine ⟨?_, ?_, ?_⟩
    · intro p b rest hcan hsz hb
      cases p with
      | pNull =>
        rw [show (dumpsVal .pNull).reverse ++ b :: rest =
          'l' :: 'l' :: 'u' :: 'n' :: b :: rest from rfl]
        rw [rparseVal]
        simp
      | pBool bv =>
        cases bv with
        | true =>
          rw [show (dumpsVal (.pBool true)).reverse ++ b :: rest =
            'e' :: 'u' :: 'r' :: 't' :: b :: rest from rfl]
          rw [rparseVal]
          simp
        | false =>
          rw [show (dumpsVal (.pBool false)).reverse ++ b :: rest =
            'e' :: 's' :: 'l' :: 'a' :: 'f' :: b :: rest from rfl]
          rw [rparseVal]
          simp
      | pInt n =>
        obtain ⟨d, ds, hd, hdig⟩ := intText_rev_head n
        obtain ⟨hne1, hne2, hne3, hne4, hne5, _, _⟩ := isDigitCh_ne d hdig
        have hform : (dumpsVal (.pInt n)).reverse ++ b :: rest = d :: (ds ++ b :: rest) := by
          show (intText n).reverse ++ b :: rest = _
          rw [hd]
          rfl
        rw [hform, rparseVal]
        rw [if_neg hne1, if_neg hne2, if_neg hne3, if_neg hne4, if_neg hne5, if_pos hdig]
        have hback : d :: (ds ++ b :: rest) = (intText n).reverse ++ b :: rest := by
          rw [hd]
          rfl
        rw [hback, rint_intText n b rest hb]
        rfl
      | pStr s =>
        have hform : (dumpsVal (.pStr s)).reverse ++ b :: rest =
            '"' :: ((s.data.flatMap escChar).reverse ++ '"' :: (b :: rest)) := by
          show (strText s).reverse ++ b :: rest = _
          simp [strText]
        have hb2 : leadBs (b :: rest) % 2 = 0 := by
          simp [leadBs_cons_ne b rest (goodB_spec b hb).2.2]
        have hkey := rstr_strText s (b :: rest) hb2
        rw [show (strText s).reverse ++ (b :: rest) =
          '"' :: ((s.data.flatMap escChar).reverse ++ '"' :: (b :: rest)) from by
          simp [strText]] at hkey
        rw [hform, rparseVal, if_pos rfl, hkey]
        rfl
      | pList l =>
        cases l with
        | nil =>
          rw [show (dumpsVal (.pList [])).reverse ++ b :: rest =
            ']' :: '[' :: b :: rest from rfl]
          rw [rparseVal]
          simp
        | cons v r =>
          obtain ⟨e, es, he, he1, _⟩ := dumpsItems_rev_head (v :: r) (by simp)
          have hform : (dumpsVal (.pList (v :: r))).reverse ++ b :: rest =
              ']' :: ((dumpsItems (v :: r)).reverse ++ '[' :: (b :: rest)) := by
            show ('[' :: (dumpsItems (v :: r) ++ [']'])).reverse ++ b :: rest = _
            simp
          rw [hform, rparseVal]
          rw [if_neg (by decide), if_pos rfl]
          have hhd : ¬((dumpsItems (v :: r)).reverse ++ '[' :: (b :: rest)).head? = some '[' := by
            rw [he]
            simp [he1]
          rw [if_neg hhd]
          have hcl : canonL (v :: r) = true := by simpa [canonV] using hcan
          have hszl : sizeL (v :: r) ≤ f := by
            simp [pSizeV] at hsz
            omega
          rw [ihi (v :: r) (b :: rest) (by simp) hcl hszl]
          rfl
      | pDict l =>
        have hcan2 : keysSortedB (l.map Prod.fst) = true ∧ canonD l = true := by
          simpa [canonV, Bool.and_eq_true] using hcan
        have hsort : sortEntries (renderEntries l) = renderEntries l := by
          apply sortEntries_sorted_id
          rw [renderEntries_keys]
          exact hcan2.1
        cases l with
        | nil =>
          rw [show (dumpsVal (.pDict [])).reverse ++ b :: rest =
            '\x7d' :: '\x7b' :: b :: rest from rfl]
          rw [rparseVal]
          simp
        | cons w r =>
          obtain ⟨e, es, he, _, he2⟩ := entriesText_rev_head (w :: r) (by simp)
          have hform : (dumpsVal (.pDict (w :: r))).reverse ++ b :: rest =
              '\x7d' :: ((joinEntries (renderEntries (w :: r))).reverse ++
                '\x7b' :: (b :: rest)) := by
            show ('\x7b' :: (joinEntries (sortEntries (renderEntries (w :: r))) ++
              ['\x7d'])).reverse ++ b :: rest = _
            rw [hsort]
            simp
          rw [hform, rparseVal]
          rw [if_neg (by decide), if_neg (by decide), if_pos rfl]
          have hhd : ¬((joinEntries (renderEntries (w :: r))).reverse ++
              '\x7b' :: (b :: rest)).head? = some '\x7b' := by
            rw [he]
            simp [he2]
          rw [if_neg hhd]
          have hcd : canonD (w :: r) = true := hcan2.2
          have hszd : sizeD (w :: r) ≤ f := by
            simp [pSizeV] at hsz
            omega
          rw [ihe (w :: r) (b :: rest) (by simp) hcd hszd]
          rfl
    · intro l rest hne hcan hsz
      obtain h0 | ⟨init, v, rfl⟩ := l.eq_nil_or_concat
      · exact absurd h0 hne
      simp only [List.concat_eq_append] at hcan hsz ⊢
      have hca := hcan
      rw [canonL_append, Bool.and_eq_true] at hca
      have hcv : canonV v = true := by
        have h2 := hca.2
        simp [canonL, Bool.and_eq_true] at h2
        exact h2
      have hsza := hsz
      rw [sizeL_concat] at hsza
      cases init with
      | nil =>
        rw [show (dumpsItems ([] ++ [v])).reverse ++ '[' :: rest =
          (dumpsVal v).reverse ++ '[' :: rest from by simp [dumpsItems]]
        rw [rparseItems]
        rw [ihv v '[' rest hcv (by simp [sizeL] at hsza; omega) (by decide)]
        simp
      | cons w r =>
        have hform : (dumpsItems ((w :: r) ++ [v])).reverse ++ '[' :: rest =
            (dumpsVal v).reverse ++ ' ' ::
              (',' :: ((dumpsItems (w :: r)).reverse ++ '[' :: rest)) := by
          rw [dumpsItems_concat (w :: r) v (by simp)]
          simp
        rw [hform, rparseItems]
        rw [ihv v ' ' _ hcv (by simp [sizeL] at hsza ⊢; omega) (by decide)]
        simp only [Option.some_bind]
        rw [if_neg (by simp)]
        rw [if_pos (by rfl)]
        rw [show (' ' :: (',' :: ((dumpsItems (w :: r)).reverse ++ '[' :: rest))).drop 2 =
          (dumpsItems (w :: r)).reverse ++ '[' :: rest from rfl]
        have hcl : canonL (w :: r) = true := hca.1
        rw [ihi (w :: r) rest (by simp) hcl (by simp [sizeL] at hsza ⊢; omega)]
        rfl
    · intro l rest hne hcan hsz
      obtain h0 | ⟨init, kv, rfl⟩ := l.eq_nil_or_concat
      · exact absurd h0 hne
      obtain ⟨k, v⟩ := kv
      simp only [List.concat_eq_append] at hcan hsz ⊢
      have hca := hcan
      rw [canonD_append, Bool.and_eq_true] at hca
      have hcv : canonV v = true := by
        have h2 := hca.2
        simp [canonD, Bool.and_eq_true] at h2
        exact h2
      have hsza := hsz
      rw [sizeD_concat] at hsza
      have hkey0 : leadBs ('\x7b' :: rest) % 2 = 0 := by
        simp [leadBs_cons_ne '\x7b' rest (by decide)]
      cases init with
      | nil =>
        have hform : (joinEntries (renderEntries ([] ++ [(k, v)]))).reverse ++
            '\x7b' :: rest =
            (dumpsVal v).reverse ++ ' ' ::
              (':' :: ((strText k).reverse ++ '\x7b' :: rest)) := by
          rw [show renderEntries ([] ++ [(k, v)]) = [(k, dumpsVal v)] from rfl]
          rw [show joinEntries [(k, dumpsVal v)] =
            strText k ++ ':' :: ' ' :: dumpsVal v from rfl]
          simp
        rw [hform, rparseEntries]
        rw [ihv v ' ' _ hcv (by simp [sizeD] at hsza; omega) (by decide)]
        simp only [Option.some_bind]
        rw [if_pos (by rfl)]
        rw [show (' ' :: (':' :: ((strText k).reverse ++ '\x7b' :: rest))).drop 2 =
          (strText k).reverse ++ '\x7b' :: rest from rfl]
        rw [rstr_strText k ('\x7b' :: rest) hkey0]
        simp only [Option.some_bind]
        rw [if_pos (by rfl)]
        rfl
      | cons w r =>
        have hform : (joinEntries (renderEntries ((w :: r) ++ [(k, v)]))).reverse ++
            '\x7b' :: rest =
            (dumpsVal v).reverse ++ ' ' ::
              (':' :: ((strText k).reverse ++ ' ' ::
                (',' :: ((joinEntries (renderEntries (w :: r))).reverse ++
                  '\x7b' :: rest)))) := by
          rw [renderEntries_append]
          rw [show renderEntries [(k, v)] = [(k, dumpsVal v)] from rfl]
          rw [joinEntries_concat (renderEntries (w :: r)) k (dumpsVal v)
            (by obtain ⟨wk, wv⟩ := w; rw [renderEntries]; simp)]
          simp
        rw [hform, rparseEntries]
        rw [ihv v ' ' _ hcv (by simp [sizeD] at hsza ⊢; omega) (by decide)]
        simp only [Option.some_bind]
        rw [if_pos (by rfl)]
        rw [show (' ' :: (':' :: ((strText k).reverse ++ ' ' ::
          (',' :: ((joinEntries (renderEntries (w :: r))).reverse ++
            '\x7b' :: rest))))).drop 2 =
          (strText k).reverse ++ ' ' ::
            (',' :: ((joinEntries (renderEntries (w :: r))).reverse ++
              '\x7b' :: rest)) from rfl]
        have hkey1 : leadBs (' ' :: (',' ::
            ((joinEntries (renderEntries (w :: r))).reverse ++ '\x7b' :: rest))) % 2 = 0 := by
          simp [leadBs_cons_ne ' ' _ (by decide)]
        rw [rstr_strText k _ hkey1]
        simp only [Option.some_bind]
        rw [if_neg (by simp)]
        rw [if_pos (by rfl)]
        rw [show (' ' :: (',' :: ((joinEntries (renderEntries (w :: r))).reverse ++
          '\x7b' :: rest))).drop 2 =
          (joinEntries (renderEntries (w :: r))).reverse ++ '\x7b' :: rest from rfl]
        have hcd : canonD (w :: r) = true := hca.1
        rw [ihe (w :: r) rest (by simp) hcd (by simp [sizeD] at hsza ⊢; omega)]
        rfl

/-- Character data of the pre-digest string. -/
theorem hashInput_data (q : String) (p : PValue) :
    (hashInput q p).data = q.data ++ ':' :: dumpsVal p := by
  show (q ++ ":" ++ jsonDumps p).data = _
  simp [jsonDumps, String.data_append]

/-- The pre-digest string determines the query and the canonical
parameters: running the right-to-left parser on the reversed string
recovers both, so two equal strings come from equal inputs. -/
theorem hashInput_inj (q1 q2 : String) (p1 p2 : PValue)
    (h1 : canonV p1 = true) (h2 : canonV p2 = true)
    (heq : hashInput q1 p1 = hashInput q2 p2) : q1 = q2 ∧ p1 = p2 := by
  have hd : q1.data ++ ':' :: dumpsVal p1 = q2.data ++ ':' :: dumpsVal p2 := by
    rw [← hashInput_data, ← hashInput_data, heq]
  have hrev : (dumpsVal p1).reverse ++ ':' :: q1.data.reverse =
      (dumpsVal p2).reverse ++ ':' :: q2.data.reverse := by
    have h3 := congrArg List.reverse hd
    simpa using h3
  have r1 := (rparse_retr (max (pSizeV p1) (pSizeV p2))).1 p1 ':' q1.data.reverse h1
    (le_max_left _ _) (by decide)
  have r2 := (rparse_retr (max (pSizeV p1) (pSizeV p2))).1 p2 ':' q2.data.reverse h2
    (le_max_right _ _) (by decide)
  rw [hrev, r2] at r1
  simp only [Option.some.injEq, Prod.mk.injEq] at r1
  refine ⟨?_, r1.1.symm⟩
  have hqd : q2.data.reverse = q1.data.reverse := by
    have h4 := r1.2
    rw [List.cons.injEq] at h4
    exact h4.2
  have hdata : q1.data = q2.data := by
    have h5 := congrArg List.reverse hqd
    simpa using h5.symm
  obtain ⟨d1⟩ := q1
  obtain ⟨d2⟩ := q2
  exact congrArg String.mk hdata

/-- C8.  Cache-key derivation is deterministic and input-sensitive: with
the digest modeled as an arbitrary injective function (the specification
treats the algorithm as an implementation detail and assumes its
collision-freedom), two calls of `_generate_cache_key` return the same key
exactly when their query texts and their parameter values both coincide.
Parameters are taken in canonical form — each mapping listing its entries
in the strictly increasing key order — which is the unique representative
of a Python dict value under `json.dumps(..., sort_keys=True)`. -/
theorem claim_C8_cache_key (md5 : String → String) (hmd5 : Function.Injective md5)
    (q1 q2 : String) (p1 p2 : PValue)
    (h1 : canonV p1 = true) (h2 : canonV p2 = true) :
    generateCacheKey md5 q1 p1 = generateCacheKey md5 q2 p2 ↔ (q1 = q2 ∧ p1 = p2) := by
  constructor
  · intro h
    exact hashInput_inj q1 q2 p1 p2 h1 h2 (hmd5 h)
  · rintro ⟨rfl, rfl⟩
    rfl

/-- Witness: the theorem applied at the identity digest and concrete
inputs, every hypothesis discharged there. -/
theorem claim_C8_cache_key_witness :
    generateCacheKey id "SELECT x" (.pList [.pInt 1]) =
        generateCacheKey id "SELECT y" (.pList [.pInt 2]) ↔
      ("SELECT x" = "SELECT y" ∧
        PValue.pList [PValue.pInt 1] = PValue.pList [PValue.pInt 2]) :=
  claim_C8_cache_key id (fun _ _ h => h) "SELECT x" "SELECT y"
    (.pList [.pInt 1]) (.pList [.pInt 2]) rfl rfl

end MysqlModule
